import Mathlib

/-!
# Verification of the MLDatabase ingestion/merge/catalog engine

Shallow embedding of `mldatabase/__main__.py` and `mldatabase/_globals.py`
(package MLDatabase): the `update` pipeline (`cli_update`, `perform_update`,
`process_exp_files`, `dyn_range`), the exposure-file scan driven by
`EXP_REGEX`, and the lock handling around updates and read sessions.

Python filesystem state is modelled explicitly:
* a source directory is a list of `DirEntry` (one per candidate primary
  CSV-file, with the digit string appearing in its name, the presence of the
  paired companion file, its mtime, its rows, and the exposure-id field of
  the companion file's single metadata row);
* the database directory is a `DBState` (the `master.hdf5` attributes and
  datasets, the `exp_master.hdf5` row list, the `temp_exp{n}.hdf5` shard
  files, and the `objids` dataset) plus a list of lock files;
* filesystem side effects of the merge (`export_hdf5`, `os.remove`,
  `os.rename`, lock creation/removal) are recorded in an event trace.
-/

/-- One row of a primary exposure CSV-file (`EXP_HEADER`).  Only the two
fields the engine inspects are modelled: `objid` (used by the reindexing
step) and `expnum` (used by the validation in `process_exp_files`). -/
structure Row where
  objid : Int
  expnum : Nat
deriving DecidableEq, Repr

/-- A candidate primary exposure file `Exp<digits>.csv` found in the source
directory, together with everything the engine reads from it:
`digits` is the digit string in the filename, `hasCompanion` records whether
the paired `Exp<digits>_xtr.csv` (or `_epochs.csv`) file exists, `mtime` is
the primary file's modification time, `rows` its parsed rows, and
`xtrExpnum` the `expnum` field of the companion file's single metadata row. -/
structure DirEntry where
  digits : List (Fin 10)
  hasCompanion : Bool
  mtime : Nat
  rows : List Row
  xtrExpnum : Nat
deriving DecidableEq, Repr

/-- An exposure unit recognised by the scan: the integer id parsed from the
filename plus the data read from the pair of files. -/
structure ExpSrc where
  expnum : Nat
  mtime : Nat
  rows : List Row
  xtrExpnum : Nat
deriving DecidableEq, Repr

/-- One element of the `expnums` dataset of `master.hdf5`: the row written by
`process_exp_files` is `(*xtr_data, path.getmtime(exp_file))`, whose first
field is the companion row's `expnum` and whose last field is the primary
file's mtime (the other `XTR_HEADER` fields are never read back). -/
structure CatalogEntry where
  expnum : Nat
  lastModified : Nat
deriving DecidableEq, Repr

/-- A semantic version `major.minor.patch` (the shape of `__version__`). -/
structure Version where
  major : Nat
  minor : Nat
  patch : Nat
deriving DecidableEq, Repr

/-- Strict semantic-version ordering: `a` is strictly older than `b`. -/
def semverLt (a b : Version) : Bool :=
  a.major < b.major ||
    (a.major == b.major &&
      (a.minor < b.minor || (a.minor == b.minor && a.patch < b.patch)))

/-- The persistent state of the database directory `.mldatabase`, lock files
aside: the version attribute and `expnums` dataset of `master.hdf5`, the row
contents of `exp_master.hdf5` (`none` when that file does not exist), the
per-exposure shard files `temp_exp{n}.hdf5` keyed by exposure number, and the
`objids` dataset (object id, occurrence count). -/
structure DBState where
  version : Option Version
  catalog : List CatalogEntry
  master : Option (List Row)
  shards : List (Nat × List Row)
  objids : List (Int × Nat)
deriving DecidableEq, Repr

/-- Kinds of lock files: the update lock `.mld_update.lock`, or an access
lock `.mld_access_*.lock` created by a read session. -/
inductive LockKind
  | update
  | access
deriving DecidableEq, Repr

/-- A lock file present in the database directory.  `ageDays` is the age of
the file in days (the code never reads it; it is carried to state claims
about stale-lock reclamation). -/
structure LockFile where
  kind : LockKind
  ageDays : Nat
deriving DecidableEq, Repr

/-- The database directory as seen by `cli_update`: persistent state plus
the set of lock files currently present. -/
structure MldDir where
  db : DBState
  locks : List LockFile
deriving DecidableEq, Repr

/-- Names of the files the update touches inside `.mldatabase`. -/
inductive FName
  | shardFile (expnum : Nat)
  | masterExpFile
  | masterTempFile
  | updateLockFile
deriving DecidableEq, Repr

/-- Filesystem events emitted by the update, in program order:
`createFile` covers both `export_hdf5` and lock-file creation. -/
inductive FsEvent
  | createFile (f : FName)
  | removeFile (f : FName)
  | rename (src dst : FName)
deriving DecidableEq, Repr

/-! ## `dyn_range` (lines 697-732 of `__main__.py`)

The Python generator yields `slice(a, b)` objects; a slice is modelled as the
pair `(a, b)`.  `int(step*1.5)` is `3 * step / 2` in natural division. -/

/-- Loop body of `dyn_range`: `fuel` bounds the number of iterations (each
yielded slice is nonempty, so `n` iterations always suffice; the value of
`dyn_range n step` below is independent of any fuel `≥ n`). -/
def dynRangeAux (n step : Nat) : Nat → Nat → List (Nat × Nat)
  | 0, _ => []
  | fuel + 1, b =>
    if b < n then
      let stepMax := 3 * step / 2
      let b2 := min (if n - b ≤ stepMax then b + stepMax else b + step) n
      (b, b2) :: dynRangeAux n step fuel b2
    else []

/-- `dyn_range(n, step)`: slices of size `step` covering `0..n-1`, the last
slice growing to up to `step*1.5` instead of leaving a small trailing one. -/
def dyn_range (n step : Nat) : List (Nat × Nat) :=
  dynRangeAux n step n 0

/-! ## The directory scan (`EXP_REGEX`, lines 440-449 of `__main__.py`)

`EXP_REGEX` recognises a primary file `Exp<digits>.csv` only when the
lookahead `(?=\d*[1-9])` succeeds on the digit string — i.e. some suffix
position starts with a digit `1..9` after zero or more digits — and pairs it
with a companion `_xtr`/`_epochs` file of the same base name. -/

/-- The lookahead `\d*[1-9]` applied to the digit string of the filename:
either the first digit is `1..9`, or it is consumed by `\d*` and the
lookahead succeeds on the rest. -/
def lookaheadNonzero : List (Fin 10) → Bool
  | [] => false
  | d :: ds => (decide (1 ≤ d.val)) || lookaheadNonzero ds

/-- `int(m['expnum'])`: the numeric value of the digit string. -/
def digitsVal (ds : List (Fin 10)) : Nat :=
  ds.foldl (fun acc d => 10 * acc + d.val) 0

/-- The scan of the source directory (lines 440-449): a directory entry
becomes an exposure unit exactly when the regex matches, i.e. when the digit
string passes the `(?=\d*[1-9])` lookahead and the companion file exists. -/
def scanDir (dir : List DirEntry) : List ExpSrc :=
  dir.filterMap fun e =>
    if lookaheadNonzero e.digits && e.hasCompanion then
      some ⟨digitsVal e.digits, e.mtime, e.rows, e.xtrExpnum⟩
    else none

/-! ## The diffing loop (lines 456-482 of `__main__.py`)

For each entry `(expnum, *_, mtime)` of the known-exposures dataset, the code
looks the id up in `exp_dict`; a hit with a strictly newer source mtime is
appended to `expnums_outdated` (and kept in the dict for reprocessing), any
other hit is popped from the dict and, when a shard file `temp_exp{n}.hdf5`
for it already exists, that leftover shard is appended to `temp_files`. -/

/-- Result of the diffing loop: `outdated` is `expnums_outdated`, `leftover`
the leftover shard files appended to `temp_files`, `expDict` what remains of
`exp_dict` (the new and outdated units, in scan order). -/
structure DiffResult where
  outdated : List Nat
  leftover : List (Nat × List Row)
  expDict : List ExpSrc
deriving DecidableEq, Repr

/-- The diffing loop itself, structurally recursive over the catalog
entries.  `exp_dict` is modelled as an association list in insertion order;
`pop` is a filter on the key, `get` a `find?`. -/
def diffPhase (shards : List (Nat × List Row)) :
    List CatalogEntry → List ExpSrc → DiffResult
  | [], dict => ⟨[], [], dict⟩
  | c :: cs, dict =>
    match dict.find? (fun s => s.expnum == c.expnum) with
    | none => diffPhase shards cs dict
    | some src =>
      if c.lastModified < src.mtime then
        let r := diffPhase shards cs dict
        ⟨c.expnum :: r.outdated, r.leftover, r.expDict⟩
      else
        let r := diffPhase shards cs (dict.filter fun s => s.expnum != c.expnum)
        match shards.find? (fun sh => sh.1 == c.expnum) with
        | some sh => ⟨r.outdated, sh :: r.leftover, r.expDict⟩
        | none => r

/-! ## Processing one exposure (`process_exp_files`, lines 626-670) -/

/-- The `expnum`-column validation of `process_exp_files` (line 645): every
row of the primary file must carry the unit's own exposure number. -/
def validUnit (u : ExpSrc) : Bool :=
  u.rows.all fun r => r.expnum == u.expnum

/-- `exp_data.export_hdf5(exp_file_hdf5)` (line 654): writing the shard file
`temp_exp{expnum}.hdf5` overwrites an existing file of that name, otherwise
creates it.  As an association list: replace the first entry with this key,
else append. -/
def upsertShard (e : Nat) (rows : List Row) :
    List (Nat × List Row) → List (Nat × List Row)
  | [] => [(e, rows)]
  | s :: ss => if s.1 = e then (e, rows) :: ss else s :: upsertShard e rows ss

/-- Lines 656-667: the catalog row for this exposure.  `np.nonzero` finds the
first catalog index whose `expnum` field equals the unit id; if found that
row is overwritten in place with `(*xtr_data, mtime)`, otherwise the dataset
is grown by one and the row appended.  The stored `expnum` is the companion
row's `expnum` field (`xtr_data[0]`), not the unit id. -/
def upsertCatalog (unitId xtrId mtime : Nat) :
    List CatalogEntry → List CatalogEntry
  | [] => [⟨xtrId, mtime⟩]
  | c :: cs =>
    if c.expnum = unitId then ⟨xtrId, mtime⟩ :: cs
    else c :: upsertCatalog unitId xtrId mtime cs

/-- Result of the processing loop (lines 496-517): the catalog and shard
files after the loop, the newly produced shard contents appended to
`temp_files` (in order), the filesystem events, and whether a mismatched
exposure number caused `sys.exit` (aborting the whole invocation). -/
structure ProcResult where
  catalog : List CatalogEntry
  shards : List (Nat × List Row)
  newTemp : List (Nat × List Row)
  trace : List FsEvent
  aborted : Bool
deriving DecidableEq, Repr

/-- The processing loop over the remaining `exp_dict` items, in insertion
order.  A unit failing the validation prints an error and exits *before*
writing its shard or touching the catalog; units processed earlier keep
their effects (the HDF5 file is open in `r+` mode). -/
def processLoop : List ExpSrc → List CatalogEntry → List (Nat × List Row) →
    ProcResult
  | [], cat, sh => ⟨cat, sh, [], [], false⟩
  | u :: us, cat, sh =>
    if validUnit u then
      let r := processLoop us (upsertCatalog u.expnum u.xtrExpnum u.mtime cat)
        (upsertShard u.expnum u.rows sh)
      ⟨r.catalog, r.shards, (u.expnum, u.rows) :: r.newTemp,
        FsEvent.createFile (FName.shardFile u.expnum) :: r.trace, r.aborted⟩
    else ⟨cat, sh, [], [], true⟩

/-! ## Batch merging (lines 555-585) -/

/-- State after (part of) the batch-merge loop: the master store contents,
the shard files still present, and the filesystem events of the loop. -/
structure MergeResult where
  master : Option (List Row)
  shards : List (Nat × List Row)
  trace : List FsEvent
deriving DecidableEq, Repr

/-- The batch-merge loop.  Per batch (a list of shard files): `open_many`
concatenates the batch's shard rows in list order; if `exp_master.hdf5`
exists it is opened, the batch is concatenated after it, and its path is
appended to the batch's file list; the result is exported to `temp.hdf5`;
then *all* files in the batch's list are removed (the shards, plus the old
master when it existed), and finally `temp.hdf5` is renamed to
`exp_master.hdf5`. -/
def mergeBatches :
    Option (List Row) → List (Nat × List Row) →
    List (List (Nat × List Row)) → MergeResult
  | master, shards, [] => ⟨master, shards, []⟩
  | master, shards, bl :: rest =>
    let batchRows := (bl.map fun s => s.2).flatten
    let newMaster := master.getD [] ++ batchRows
    let seg := FsEvent.createFile FName.masterTempFile ::
      ((bl.map fun s => FsEvent.removeFile (FName.shardFile s.1)) ++
        (if master.isSome then [FsEvent.removeFile FName.masterExpFile]
         else []) ++
        [FsEvent.rename FName.masterTempFile FName.masterExpFile])
    let shards2 := shards.filter fun s => bl.all fun t => t.1 != s.1
    let r := mergeBatches (some newMaster) shards2 rest
    ⟨r.master, r.shards, seg ++ r.trace⟩

/-! ## Reindexing (lines 587-611) -/

/-- Insert an integer into an ascending list (helper for the sorted order of
`np.unique`). -/
def insertSorted (x : Int) : List Int → List Int
  | [] => [x]
  | y :: ys => if x ≤ y then x :: y :: ys else y :: insertSorted x ys

/-- Ascending insertion sort (helper for the sorted order of `np.unique`). -/
def sortInts (l : List Int) : List Int :=
  l.foldr insertSorted []

/-- `np.unique(values, return_counts=True)` on the master store's `objid`
column: the distinct values in ascending order, each paired with its exact
number of occurrences. -/
def uniqueCounts (xs : List Int) : List (Int × Nat) :=
  (sortInts xs.dedup).map fun v => (v, xs.count v)

/-- Look an object id up in the stored `objids` dataset and return its
`count` field, `0` when the id is absent. -/
def catalogCount (l : List (Int × Nat)) (x : Int) : Nat :=
  ((l.find? fun p => p.1 == x).map fun p => p.2).getD 0

/-! ## Version handling on open (lines 425-428) -/

/-- `m_file.attrs.setdefault('version', __version__)` (line 428): the stored
version tag when present, otherwise the running tool's version (which is then
stored).  This single call is the entirety of the version handling performed
when the master metadata file is opened. -/
def setdefaultVersion (stored : Option Version) (tool : Version) : Version :=
  stored.getD tool

/-- The single error the spec's version check could raise. -/
inductive VersionError
  | storedNewer
deriving DecidableEq, Repr

/-- Opening the catalog, viewed as the fallible operation the spec
describes: the result type records that a fatal `VersionError` is possible
in principle, and the definition records what the code does — line 428
performs no comparison and never fails, whatever the stored tag is. -/
def openCatalogVersion (stored : Option Version) (tool : Version) :
    Except VersionError Version :=
  Except.ok (setdefaultVersion stored tool)

/-! ## `perform_update` (lines 407-622) -/

/-- The outcome of one `perform_update` invocation.  `nNew`/`nOutdated` are
the counts printed at lines 485-488 (`n_expnums_new` is computed as
`len(exp_dict) - n_expnums_outdated` *after* the diffing loop, so it is an
integer).  `mergeInput` is the final `temp_files` list (leftover shards then
newly processed shards).  `merged` records whether the merge branch (lines
491-618) ran to completion, `aborted` whether `sys.exit` was raised while
processing a unit, and `trace` the filesystem events in program order. -/
structure UpdResult where
  db : DBState
  trace : List FsEvent
  nNew : Int
  nOutdated : Nat
  mergeInput : List (Nat × List Row)
  merged : Bool
  aborted : Bool
deriving DecidableEq, Repr

/-- The compaction pass (lines 527-553): when the master exposure file
exists and some exposures are outdated, the master is rewritten keeping only
rows whose exposure number is not outdated (`export_hdf5` to `temp.hdf5`,
remove the original, rename); otherwise nothing happens. -/
def compactMaster (master : Option (List Row)) (outdated : List Nat) :
    Option (List Row) × List FsEvent :=
  match master, outdated with
  | some m, _ :: _ =>
    (some (m.filter fun r => !(outdated.contains r.expnum)),
      [FsEvent.createFile FName.masterTempFile,
        FsEvent.removeFile FName.masterExpFile,
        FsEvent.rename FName.masterTempFile FName.masterExpFile])
  | m, _ => (m, [])

/-- Line 524: `temp_files = [temp_files[slc] for slc in
dyn_range(len(temp_files))]` — the shard-file list cut along the slices of
`dyn_range`. -/
def sliceList (tf : List (Nat × List Row)) : List (List (Nat × List Row)) :=
  (dyn_range tf.length 100).map fun ab => (tf.drop ab.1).take (ab.2 - ab.1)

/-- `perform_update`: scan the source directory, diff against the known
exposures, process the new/outdated units into shards, purge outdated rows
from the master store, merge the shards batch-wise, and recompute the
object catalog.  Straight-line embedding of lines 407-622; the
`KeyboardInterrupt` handler (lines 511-514) is not modelled (no
asynchronous interrupts in the embedding). -/
def performUpdate (tool : Version) (dir : List DirEntry) (db : DBState) :
    UpdResult :=
  let version := some (setdefaultVersion db.version tool)
  let scanned := scanDir dir
  let d := diffPhase db.shards db.catalog scanned
  let nOutdated := d.outdated.length
  let nNew : Int := (d.expDict.length : Int) - (nOutdated : Int)
  if d.expDict.isEmpty && d.leftover.isEmpty then
    ⟨⟨version, db.catalog, db.master, db.shards, db.objids⟩,
      [], nNew, nOutdated, d.leftover, false, false⟩
  else
    let p := processLoop d.expDict db.catalog db.shards
    let tempFiles := d.leftover ++ p.newTemp
    if p.aborted then
      ⟨⟨version, p.catalog, db.master, p.shards, db.objids⟩,
        p.trace, nNew, nOutdated, tempFiles, false, true⟩
    else
      let cpt := compactMaster db.master d.outdated
      let batches := sliceList tempFiles
      let mg := mergeBatches cpt.1 p.shards batches
      let objids := uniqueCounts ((mg.master.getD []).map fun r => r.objid)
      ⟨⟨version, p.catalog, mg.master, mg.shards, objids⟩,
        p.trace ++ cpt.2 ++ mg.trace, nNew, nOutdated, tempFiles, true, false⟩

/-! ## `cli_update` (lines 279-314) and `open_database` (lines 319-403) -/

/-- The outcome of one `cli_update` invocation: the resulting directory
state, whether the invocation failed on an existing lock file (printing an
error and exiting before touching anything), the inner update result when it
ran, and the filesystem events including lock handling. -/
structure CliResult where
  state : MldDir
  conflict : Bool
  upd : Option UpdResult
  trace : List FsEvent
deriving DecidableEq, Repr

/-- `cli_update`: if any `.lock` file exists in the database directory the
command fails immediately (lines 290-301) — with a dedicated message when it
is the update lock — leaving everything untouched; otherwise the update-lock
file is created, `perform_update` runs, and the `finally` block removes the
lock on every exit path, `sys.exit` included (`SystemExit` is not caught by
the `KeyboardInterrupt` handler and still triggers `finally`). -/
def cliUpdate (tool : Version) (dir : List DirEntry) (s : MldDir) :
    CliResult :=
  if s.locks.isEmpty then
    let r := performUpdate tool dir s.db
    ⟨⟨r.db, s.locks⟩, false, some r,
      FsEvent.createFile FName.updateLockFile ::
        (r.trace ++ [FsEvent.removeFile FName.updateLockFile])⟩
  else ⟨s, true, none, []⟩

/-- The lock check of `open_database` (lines 360-377): a read session is
refused exactly when the update-lock file `.mld_update.lock` exists; the age
of the lock file is never consulted and no lock file is ever deleted by the
check. -/
def openDatabaseBlocked (locks : List LockFile) : Bool :=
  locks.any fun lk => lk.kind == LockKind.update

/-! ## Concrete inputs used by witnesses and counterexamples -/

/-- A source directory entry `Exp1.csv` + `Exp1_xtr.csv` with one row. -/
def entryExp1 : DirEntry :=
  ⟨[1], true, 5, [⟨10, 1⟩], 1⟩

/-- A source directory entry `Exp2.csv` + `Exp2_xtr.csv` with one row. -/
def entryExp2 : DirEntry :=
  ⟨[2], true, 6, [⟨11, 2⟩], 2⟩

/-- `Exp1.csv` whose row carries exposure number 2: fails validation. -/
def entryExp1Bad : DirEntry :=
  ⟨[1], true, 5, [⟨10, 2⟩], 1⟩

/-- The required flat files `Exp0.csv` + `Exp0_xtr.csv` (digit string "0"). -/
def entryExp0 : DirEntry :=
  ⟨[0], true, 3, [⟨7, 0⟩], 0⟩

/-- `Exp5.csv` + `Exp5_xtr.csv` where the (never validated) companion
metadata row carries exposure id 7 instead of 5: the catalog row written by
`process_exp_files` is keyed by the companion's id field. -/
def entryExp5BadXtr : DirEntry :=
  ⟨[5], true, 4, [⟨20, 5⟩], 7⟩

/-- An empty database directory state (fresh after `init` makes the folder). -/
def emptyDB : DBState :=
  ⟨none, [], none, [], []⟩

/-- A tool version used in concrete runs. -/
def toolV : Version := ⟨0, 1, 0⟩

/-- The shape of the slice list produced by `dyn_range n 100`, starting at
lower bound `b`: a (possibly empty) run of slices of width exactly 100,
taken while more than 150 indices remain, closed by one final slice taking
everything left (at most 150 indices). -/
inductive SliceChain (n : Nat) : Nat → List (Nat × Nat) → Prop
  | nil : SliceChain n n []
  | last (b : Nat) : b < n → n - b ≤ 150 → SliceChain n b [(b, n)]
  | step (b : Nat) (l : List (Nat × Nat)) : 150 < n - b →
      SliceChain n (b + 100) l → SliceChain n b ((b, b + 100) :: l)

/-! # Theorems -/

/-! ## Claim C8: the shape of `dyn_range n 100` -/

theorem dynRangeAux_at_top (n step fuel : Nat) :
    dynRangeAux n step fuel n = [] := by
  cases fuel with
  | zero => rfl
  | succ fuel => simp [dynRangeAux]

theorem dynRangeAux_chain (n : Nat) : ∀ fuel b, b ≤ n → n - b ≤ fuel →
    SliceChain n b (dynRangeAux n 100 fuel b) := by
  intro fuel
  induction fuel with
  | zero =>
    intro b hb hf
    have hbn : b = n := by omega
    subst hbn
    exact SliceChain.nil
  | succ fuel ih =>
    intro b hb hf
    by_cases hlt : b < n
    · rw [dynRangeAux]
      simp only [if_pos hlt]
      by_cases hr : n - b ≤ 3 * 100 / 2
      · have hmin : min (b + 3 * 100 / 2) n = n := by omega
        simp only [if_pos hr, hmin, dynRangeAux_at_top]
        exact SliceChain.last b hlt (by omega)
      · have hmin : min (b + 100) n = b + 100 := by omega
        simp only [if_neg hr, hmin]
        exact SliceChain.step b _ (by omega) (ih (b + 100) (by omega) (by omega))
    · have hbn : b = n := by omega
      subst hbn
      rw [dynRangeAux_at_top]
      exact SliceChain.nil

theorem dyn_range_chain (n : Nat) : SliceChain n 0 (dyn_range n 100) :=
  dynRangeAux_chain n n 0 (Nat.zero_le n) (by omega)

theorem sliceChain_flatten (n : Nat) : ∀ b l, SliceChain n b l →
    (l.map fun ab => List.range' ab.1 (ab.2 - ab.1)).flatten =
      List.range' b (n - b) := by
  intro b l h
  induction h with
  | nil => simp
  | last b hb hr => simp
  | step b l hb hl ih =>
    simp only [List.map_cons, List.flatten_cons, ih]
    have h100 : b + 100 - b = 100 := by omega
    rw [h100]
    have := List.range'_append b 100 (n - (b + 100)) 1
    simp only [Nat.mul_one, Nat.one_mul] at this
    rw [this]
    congr 1
    omega

theorem sliceChain_eq_nil (n : Nat) : ∀ b l, SliceChain n b l → l = [] → b = n := by
  intro b l h
  cases h with
  | nil => intro; rfl
  | last b hb hr => intro hc; cases hc
  | step b l hb hl => intro hc; cases hc

theorem sliceChain_dropLast (n : Nat) : ∀ b l, SliceChain n b l →
    ∀ p ∈ l.dropLast, p.2 - p.1 = 100 := by
  intro b l h
  induction h with
  | nil => intro p hp; cases hp
  | last b hb hr => intro p hp; cases hp
  | step b l hb hl ih =>
    intro p hp
    have hne : l ≠ [] := by
      intro hc
      have := sliceChain_eq_nil n (b + 100) l hl hc
      omega
    rw [List.dropLast_cons_of_ne_nil hne] at hp
    cases hp with
    | head => omega
    | tail _ hp => exact ih p hp

theorem sliceChain_getLast (n : Nat) : ∀ b l, SliceChain n b l →
    ∀ p, l.getLast? = some p →
      p.2 - p.1 ≤ 150 ∧ (2 ≤ l.length → 50 < p.2 - p.1) := by
  intro b l h
  induction h with
  | nil => intro p hp; cases hp
  | last b hb hr =>
    intro p hp
    simp only [List.getLast?_singleton, Option.some_inj] at hp
    subst hp
    constructor
    · omega
    · intro hlen; simp at hlen
  | step b l hb hl ih =>
    intro p hp
    cases hl with
    | nil => omega
    | last _ hb2 hr2 =>
      rw [List.getLast?_cons_cons] at hp
      simp only [List.getLast?_singleton, Option.some_inj] at hp
      subst hp
      exact ⟨by omega, fun _ => by omega⟩
    | step b2 l2 hb2 hl2 =>
      rw [List.getLast?_cons_cons] at hp
      have hne2 : l2 ≠ [] := by
        intro hc
        have := sliceChain_eq_nil n _ _ hl2 hc
        omega
      have hlen2 : 0 < l2.length := List.length_pos.mpr hne2
      refine ⟨(ih p hp).1, fun _ => (ih p hp).2 (by simp; omega)⟩

/-- **Claim C8.**  For every `n`, the slices yielded by `dyn_range(n, 100)`
form a consecutive partition of the indices `0..n-1` (their half-open ranges
concatenate to exactly `[0, …, n-1]`); every slice except the last has
length exactly 100; the last slice has length at most 150; and whenever more
than one slice is produced the last slice has length strictly greater
than 50. -/
theorem claim_C8 (n : Nat) :
    ((dyn_range n 100).map fun ab => List.range' ab.1 (ab.2 - ab.1)).flatten
        = List.range n ∧
    (∀ p ∈ (dyn_range n 100).dropLast, p.2 - p.1 = 100) ∧
    (∀ p, (dyn_range n 100).getLast? = some p → p.2 - p.1 ≤ 150) ∧
    (2 ≤ (dyn_range n 100).length →
      ∀ p, (dyn_range n 100).getLast? = some p → 50 < p.2 - p.1) := by
  have hch := dyn_range_chain n
  refine ⟨?_, ?_, ?_, ?_⟩
  · rw [sliceChain_flatten n 0 _ hch, Nat.sub_zero, ← List.range_eq_range']
  · exact sliceChain_dropLast n 0 _ hch
  · exact fun p hp => (sliceChain_getLast n 0 _ hch p hp).1
  · exact fun hlen p hp => (sliceChain_getLast n 0 _ hch p hp).2 hlen

/-- Witness for C8 at `n = 230`: two slices `(0,100)` and `(100,230)`. -/
theorem claim_C8_witness :
    ((dyn_range 230 100).map fun ab => List.range' ab.1 (ab.2 - ab.1)).flatten
        = List.range 230 ∧
    (∀ p ∈ (dyn_range 230 100).dropLast, p.2 - p.1 = 100) ∧
    (∀ p, (dyn_range 230 100).getLast? = some p → p.2 - p.1 ≤ 150) ∧
    (2 ≤ (dyn_range 230 100).length →
      ∀ p, (dyn_range 230 100).getLast? = some p → 50 < p.2 - p.1) :=
  claim_C8 230

/-! ## Claim C10: the scan never recognises exposure id 0 -/

theorem digitsVal_foldl_pos (ds : List (Fin 10)) : ∀ acc, 0 < acc →
    0 < ds.foldl (fun acc d => 10 * acc + d.val) acc := by
  induction ds with
  | nil => intro acc h; simpa using h
  | cons d ds ih =>
    intro acc h
    simp only [List.foldl_cons]
    exact ih _ (by omega)

theorem lookaheadNonzero_digitsVal (ds : List (Fin 10)) :
    lookaheadNonzero ds = true → digitsVal ds ≠ 0 := by
  induction ds with
  | nil => intro h; cases h
  | cons d ds ih =>
    intro h
    simp only [lookaheadNonzero, Bool.or_eq_true, decide_eq_true_eq] at h
    cases h with
    | inl h1 =>
      have : 0 < digitsVal (d :: ds) := by
        simp only [digitsVal, List.foldl_cons]
        exact digitsVal_foldl_pos ds _ (by omega)
      omega
    | inr h2 =>
      have hval := ih h2
      intro hc
      simp only [digitsVal, List.foldl_cons] at hc
      by_cases hd : d.val = 0
      · exact hval (by simpa [digitsVal, hd] using hc)
      · have hpos : 0 < ds.foldl (fun acc d => 10 * acc + d.val) (10 * 0 + d.val) :=
          digitsVal_foldl_pos ds _ (by omega)
        omega

/-- **Claim C10.**  The directory scan never recognises exposure id 0: the
`(?=\d*[1-9])` lookahead of `EXP_REGEX` only accepts digit strings with a
nonzero digit, whose numeric value is nonzero, so every unit produced by
`scanDir` has a nonzero exposure number — and in particular the required
flat files `Exp0.csv`/`Exp0_xtr.csv` are excluded from every scan (and hence
never processed into the master store, whose new rows come only from scanned
units). -/
theorem claim_C10 :
    (∀ dir : List DirEntry, ∀ src ∈ scanDir dir, src.expnum ≠ 0) ∧
    scanDir [entryExp0] = [] := by
  constructor
  · intro dir src hsrc
    simp only [scanDir, List.mem_filterMap] at hsrc
    obtain ⟨e, _, he⟩ := hsrc
    by_cases hc : lookaheadNonzero e.digits && e.hasCompanion
    · rw [if_pos hc] at he
      cases he
      have := lookaheadNonzero_digitsVal e.digits (by
        simpa using (Bool.and_eq_true _ _).mp hc |>.1)
      simpa using this
    · rw [if_neg hc] at he
      cases he
  · rfl

/-- Witness for C10: the unit scanned from `Exp1.csv` has id `1 ≠ 0`, and
the scan of a directory holding only the `Exp0` pair is empty. -/
theorem claim_C10_witness :
    (⟨1, 5, [⟨10, 1⟩], 1⟩ : ExpSrc).expnum ≠ 0 ∧ scanDir [entryExp0] = [] :=
  ⟨claim_C10.1 [entryExp1] ⟨1, 5, [⟨10, 1⟩], 1⟩ (by decide), claim_C10.2⟩

/-! ## Claim C4: the version check on open

The claim says opening the catalog fails with a `VersionError` exactly when
the stored version is strictly newer (semantic-version order) than the tool
version.  Line 428 of `__main__.py` is the entirety of the version handling:
`m_file.attrs.setdefault('version', __version__)` neither compares versions
nor can fail, and its result `mld_version` is never used afterwards.  There
is no `VersionError` anywhere in the code. -/

/-- **Counterexample to C4 as stated.**  With stored version `2.0.0` and
tool version `1.0.0` the stored version is strictly newer, yet opening
succeeds — so "fails if and only if the stored version is strictly newer"
is false at this input. -/
theorem claim_C4_counterexample :
    ¬(((openCatalogVersion (some ⟨2, 0, 0⟩) ⟨1, 0, 0⟩).isOk = false) ↔
        semverLt ⟨1, 0, 0⟩ ⟨2, 0, 0⟩ = true) := by
  decide

/-- **Claim C4, amended.**  On opening the catalog, the stored version tag
is never compared against the tool version: the open always succeeds, and a
stored version strictly newer than the tool version is accepted unchanged
(when no version is stored, the tool version is stored and returned). -/
theorem claim_C4_amended (stored : Option Version) (tool : Version) :
    (openCatalogVersion stored tool).isOk = true ∧
    (∀ v : Version, semverLt tool v = true →
      openCatalogVersion (some v) tool = Except.ok v) := by
  constructor
  · rfl
  · intro v _
    rfl

/-- Witness for the amended C4: a stored `9.9.9` against tool `0.1.0`. -/
theorem claim_C4_witness :
    (openCatalogVersion (some ⟨9, 9, 9⟩) ⟨0, 1, 0⟩).isOk = true ∧
    openCatalogVersion (some ⟨9, 9, 9⟩) ⟨0, 1, 0⟩ = Except.ok ⟨9, 9, 9⟩ :=
  ⟨(claim_C4_amended (some ⟨9, 9, 9⟩) ⟨0, 1, 0⟩).1,
    (claim_C4_amended (some ⟨9, 9, 9⟩) ⟨0, 1, 0⟩).2 ⟨9, 9, 9⟩ (by decide)⟩

/-! ## Claim C9: stale-lock reclamation

The claim says lock files older than 7 days are proactively deleted so they
do not block operations.  Neither `cli_update` (lines 286-301) nor
`open_database` (lines 360-377) ever reads a lock file's age or deletes a
lock file: any existing lock blocks an update and an update lock blocks a
read session, regardless of age. -/

/-- **Counterexample to C9 as stated.**  An access-lock file 8 days old:
`update` neither deletes it nor proceeds — it fails with the conflict error
and the stale lock file is still present afterwards.  Likewise a read
session is blocked by an 8-day-old update lock. -/
theorem claim_C9_counterexample :
    (cliUpdate toolV [] ⟨emptyDB, [⟨LockKind.access, 8⟩]⟩).conflict = true ∧
    (⟨LockKind.access, 8⟩ : LockFile) ∈
      (cliUpdate toolV [] ⟨emptyDB, [⟨LockKind.access, 8⟩]⟩).state.locks ∧
    openDatabaseBlocked [⟨LockKind.update, 8⟩] = true := by
  decide

/-- **Claim C9, amended.**  Lock files are never reclaimed, whatever their
age: an update invocation finding any lock files fails with the conflict
error and leaves every lock file — including every lock file older than 7
days — in place, and the read-session check blocks on an update lock of any
age. -/
theorem claim_C9_amended (tool : Version) (dir : List DirEntry) (s : MldDir)
    (h : s.locks ≠ []) :
    (cliUpdate tool dir s).conflict = true ∧
    (cliUpdate tool dir s).state.locks = s.locks ∧
    (∀ lk ∈ s.locks, 7 < lk.ageDays → lk ∈ (cliUpdate tool dir s).state.locks) ∧
    (∀ age : Nat, openDatabaseBlocked [⟨LockKind.update, age⟩] = true) := by
  have hcli : cliUpdate tool dir s = ⟨s, true, none, []⟩ := by
    cases hl : s.locks with
    | nil => exact absurd hl h
    | cons a l =>
      have hne : s.locks.isEmpty = false := by rw [hl]; rfl
      simp [cliUpdate, hne]
  rw [hcli]
  exact ⟨rfl, rfl, fun lk hlk _ => hlk, fun age => rfl⟩

/-- Witness for the amended C9 at a state holding one 8-day-old access lock. -/
theorem claim_C9_witness :
    (cliUpdate toolV [] ⟨emptyDB, [⟨LockKind.access, 8⟩, ⟨LockKind.update, 9⟩]⟩).conflict
        = true ∧
    (cliUpdate toolV [] ⟨emptyDB, [⟨LockKind.access, 8⟩, ⟨LockKind.update, 9⟩]⟩).state.locks
        = [⟨LockKind.access, 8⟩, ⟨LockKind.update, 9⟩] ∧
    (∀ lk ∈ ([⟨LockKind.access, 8⟩, ⟨LockKind.update, 9⟩] : List LockFile),
      7 < lk.ageDays →
        lk ∈ (cliUpdate toolV []
          ⟨emptyDB, [⟨LockKind.access, 8⟩, ⟨LockKind.update, 9⟩]⟩).state.locks) ∧
    (∀ age : Nat, openDatabaseBlocked [⟨LockKind.update, age⟩] = true) :=
  claim_C9_amended toolV [] ⟨emptyDB, [⟨LockKind.access, 8⟩, ⟨LockKind.update, 9⟩]⟩
    (by decide)

/-! ## Claim C5: lock exclusivity and lock lifecycle of `cli_update` -/

/-- **Claim C5.**  For every update invocation: when any lock file (update
or access, any age) exists in the database directory, the invocation fails
with the conflict error and leaves the whole directory state — master
store, catalog, shards, object catalog, lock files — unmodified, and
`perform_update` never runs; when no lock file exists, the invocation
starts by creating the update-lock marker, the marker's removal is the very
last filesystem event on every exit path (the `finally` block runs both on
normal return and on the `SystemExit` abort), and no lock file remains
afterwards. -/
theorem claim_C5 (tool : Version) (dir : List DirEntry) (s t : MldDir)
    (hs : s.locks ≠ []) (ht : t.locks = []) :
    ((cliUpdate tool dir s).conflict = true ∧
      (cliUpdate tool dir s).state = s ∧
      (cliUpdate tool dir s).upd = none) ∧
    ((cliUpdate tool dir t).conflict = false ∧
      (cliUpdate tool dir t).trace.head? =
        some (FsEvent.createFile FName.updateLockFile) ∧
      (cliUpdate tool dir t).trace.getLast? =
        some (FsEvent.removeFile FName.updateLockFile) ∧
      (cliUpdate tool dir t).state.locks = []) := by
  constructor
  · have hcli : cliUpdate tool dir s = ⟨s, true, none, []⟩ := by
      cases hl : s.locks with
      | nil => exact absurd hl hs
      | cons a l =>
        have hne : s.locks.isEmpty = false := by rw [hl]; rfl
        simp [cliUpdate, hne]
    rw [hcli]
    exact ⟨rfl, rfl, rfl⟩
  · have hemp : t.locks.isEmpty = true := by rw [ht]; rfl
    have hcli : cliUpdate tool dir t =
        ⟨⟨(performUpdate tool dir t.db).db, t.locks⟩, false,
          some (performUpdate tool dir t.db),
          FsEvent.createFile FName.updateLockFile ::
            ((performUpdate tool dir t.db).trace ++
              [FsEvent.removeFile FName.updateLockFile])⟩ := by
      simp [cliUpdate, hemp]
    rw [hcli]
    refine ⟨rfl, rfl, ?_, ht⟩
    rw [← List.cons_append, List.getLast?_concat]

/-- Witness for C5: a directory with one access lock conflicts untouched; a
lock-free directory runs the update bracketed by lock creation/removal. -/
theorem claim_C5_witness :
    ((cliUpdate toolV [entryExp1] ⟨emptyDB, [⟨LockKind.access, 0⟩]⟩).conflict = true ∧
      (cliUpdate toolV [entryExp1] ⟨emptyDB, [⟨LockKind.access, 0⟩]⟩).state =
        ⟨emptyDB, [⟨LockKind.access, 0⟩]⟩ ∧
      (cliUpdate toolV [entryExp1] ⟨emptyDB, [⟨LockKind.access, 0⟩]⟩).upd = none) ∧
    ((cliUpdate toolV [entryExp1] ⟨emptyDB, []⟩).conflict = false ∧
      (cliUpdate toolV [entryExp1] ⟨emptyDB, []⟩).trace.head? =
        some (FsEvent.createFile FName.updateLockFile) ∧
      (cliUpdate toolV [entryExp1] ⟨emptyDB, []⟩).trace.getLast? =
        some (FsEvent.removeFile FName.updateLockFile) ∧
      (cliUpdate toolV [entryExp1] ⟨emptyDB, []⟩).state.locks = []) :=
  claim_C5 toolV [entryExp1] ⟨emptyDB, [⟨LockKind.access, 0⟩]⟩ ⟨emptyDB, []⟩
    (by decide) rfl

/-! ## Claim C7: a mismatched exposure id aborts the whole update

The claim says a `ValidationError` aborts only the offending unit and the
remaining units are still processed and merged.  `process_exp_files` calls
`sys.exit()` on a mismatch (line 650); `SystemExit` propagates out of
`perform_update`, so no further unit is processed and no merge happens in
that invocation. -/

/-- **Counterexample to C7 as stated.**  Directory with `Exp1` (whose row
carries exposure number 2 — a validation failure) followed by the valid new
unit `Exp2`: after the invocation, nothing was merged and `Exp2` was never
processed (no shard, no catalog entry, no master store), contradicting
"the remaining new/outdated units are still processed and merged". -/
theorem claim_C7_counterexample :
    (performUpdate toolV [entryExp1Bad, entryExp2] emptyDB).aborted = true ∧
    (performUpdate toolV [entryExp1Bad, entryExp2] emptyDB).merged = false ∧
    (performUpdate toolV [entryExp1Bad, entryExp2] emptyDB).db.shards = [] ∧
    (performUpdate toolV [entryExp1Bad, entryExp2] emptyDB).db.catalog = [] ∧
    (performUpdate toolV [entryExp1Bad, entryExp2] emptyDB).db.master = none := by
  decide

theorem performUpdate_abort_effects (tool : Version) (dir : List DirEntry)
    (db : DBState) (h : (performUpdate tool dir db).aborted = true) :
    (performUpdate tool dir db).merged = false ∧
    (performUpdate tool dir db).db.master = db.master := by
  by_cases h1 : ((diffPhase db.shards db.catalog (scanDir dir)).expDict.isEmpty &&
      (diffPhase db.shards db.catalog (scanDir dir)).leftover.isEmpty) = true
  · have : (performUpdate tool dir db).aborted = false := by
      simp [performUpdate, h1]
    rw [this] at h
    cases h
  · by_cases h2 : (processLoop (diffPhase db.shards db.catalog (scanDir dir)).expDict
        db.catalog db.shards).aborted = true
    · constructor
      · simp [performUpdate, h1, h2]
      · simp [performUpdate, h1, h2]
    · have : (performUpdate tool dir db).aborted = false := by
        simp [performUpdate, h1, h2]
      rw [this] at h
      cases h

theorem processLoop_abort_after (bad : ExpSrc) (post : List ExpSrc)
    (hbad : validUnit bad = false) :
    ∀ (pre : List ExpSrc) (cat : List CatalogEntry)
      (sh : List (Nat × List Row)), (∀ u ∈ pre, validUnit u = true) →
      processLoop (pre ++ bad :: post) cat sh =
        processLoop (pre ++ [bad]) cat sh ∧
      (processLoop (pre ++ bad :: post) cat sh).aborted = true := by
  intro pre
  induction pre with
  | nil =>
    intro cat sh _
    constructor
    · simp [processLoop, hbad]
    · simp [processLoop, hbad]
  | cons u pre ih =>
    intro cat sh hpre
    have hu : validUnit u = true := hpre u (List.mem_cons_self u pre)
    have hih := ih (upsertCatalog u.expnum u.xtrExpnum u.mtime cat)
      (upsertShard u.expnum u.rows sh)
      (fun v hv => hpre v (List.mem_cons_of_mem u hv))
    constructor
    · simp [processLoop, hu, hih.1]
    · simp [processLoop, hu, hih.2]

/-- **Claim C7, amended.**  A row whose exposure-id field differs from the
unit's id aborts the entire update invocation, not just the offending unit:
the processing loop's outcome is the same as if the units after the
offending one did not exist (they are never reached), the loop reports the
abort, and an aborted invocation performs no merge and leaves the master
store untouched. -/
theorem claim_C7_amended (pre post : List ExpSrc) (bad : ExpSrc)
    (cat : List CatalogEntry) (sh : List (Nat × List Row))
    (hpre : ∀ u ∈ pre, validUnit u = true) (hbad : validUnit bad = false) :
    processLoop (pre ++ bad :: post) cat sh = processLoop (pre ++ [bad]) cat sh ∧
    (processLoop (pre ++ bad :: post) cat sh).aborted = true ∧
    (∀ (tool : Version) (dir : List DirEntry) (db : DBState),
      (performUpdate tool dir db).aborted = true →
        (performUpdate tool dir db).merged = false ∧
        (performUpdate tool dir db).db.master = db.master) :=
  ⟨(processLoop_abort_after bad post hbad pre cat sh hpre).1,
    (processLoop_abort_after bad post hbad pre cat sh hpre).2,
    fun tool dir db h => performUpdate_abort_effects tool dir db h⟩

/-- Witness for the amended C7: the invalid `Exp1` unit followed by the
valid `Exp2` unit. -/
theorem claim_C7_witness :
    processLoop [⟨1, 5, [⟨10, 2⟩], 1⟩, ⟨2, 6, [⟨11, 2⟩], 2⟩] [] [] =
      processLoop [⟨1, 5, [⟨10, 2⟩], 1⟩] [] [] ∧
    (processLoop [⟨1, 5, [⟨10, 2⟩], 1⟩, ⟨2, 6, [⟨11, 2⟩], 2⟩] [] []).aborted = true ∧
    (∀ (tool : Version) (dir : List DirEntry) (db : DBState),
      (performUpdate tool dir db).aborted = true →
        (performUpdate tool dir db).merged = false ∧
        (performUpdate tool dir db).db.master = db.master) :=
  claim_C7_amended [] [⟨2, 6, [⟨11, 2⟩], 2⟩] ⟨1, 5, [⟨10, 2⟩], 1⟩ [] []
    (by intro u hu; cases hu) (by decide)

/-! ## Claim C1: shard deletion vs. rename order in a batch merge

The claim says each batch's shard files are deleted only *after* the rename
of `temp.hdf5` over `exp_master.hdf5` has succeeded.  In the code the
`os.remove` loop over `temp_files_list` (lines 580-582) runs *before* the
`os.rename` (line 585). -/

/-- **Counterexample to C1 as stated.**  One new unit merged into a fresh
database: in the emitted event trace the batch's shard file `temp_exp1.hdf5`
is removed strictly before the rename of `temp.hdf5` over
`exp_master.hdf5` — the removal is among the first three events and the
rename is not. -/
theorem claim_C1_counterexample :
    (performUpdate toolV [entryExp1] emptyDB).trace =
      [FsEvent.createFile (FName.shardFile 1),
        FsEvent.createFile FName.masterTempFile,
        FsEvent.removeFile (FName.shardFile 1),
        FsEvent.rename FName.masterTempFile FName.masterExpFile] ∧
    FsEvent.removeFile (FName.shardFile 1) ∈
      ((performUpdate toolV [entryExp1] emptyDB).trace.take 3) ∧
    FsEvent.rename FName.masterTempFile FName.masterExpFile ∉
      ((performUpdate toolV [entryExp1] emptyDB).trace.take 3) := by
  decide

theorem mem_of_getLast?_eq_some {α : Type} :
    ∀ {l : List α} {a : α}, l.getLast? = some a → a ∈ l := by
  intro l
  induction l with
  | nil => intro a h; cases h
  | cons x t ih =>
    intro a h
    cases t with
    | nil =>
      simp only [List.getLast?_singleton, Option.some_inj] at h
      subst h
      exact List.mem_singleton_self x
    | cons y t2 =>
      rw [List.getLast?_cons_cons] at h
      exact List.mem_cons_of_mem x (ih h)

theorem mergeBatches_trace_shape (master : Option (List Row))
    (shards : List (Nat × List Row)) (batches : List (List (Nat × List Row))) :
    (mergeBatches master shards batches).trace = [] ∨
    ∃ t, (mergeBatches master shards batches).trace =
      FsEvent.createFile FName.masterTempFile :: t := by
  cases batches with
  | nil => exact Or.inl rfl
  | cons bl rest =>
    right
    exact ⟨_, rfl⟩

/-- **Claim C1, amended.**  In every batch-merge trace, each removal of a
shard file happens after the export of the new temporary master file
(`temp.hdf5`) of its batch and *before* — not after — a rename of
`temp.hdf5` over `exp_master.hdf5`: whichever way the trace is split around
a shard-file removal, an export precedes it and a rename follows it. -/
theorem claim_C1_amended (master : Option (List Row))
    (shards : List (Nat × List Row)) (batches : List (List (Nat × List Row)))
    (l1 l2 : List FsEvent) (e : Nat)
    (h : (mergeBatches master shards batches).trace =
      l1 ++ FsEvent.removeFile (FName.shardFile e) :: l2) :
    FsEvent.createFile FName.masterTempFile ∈ l1 ∧
    FsEvent.rename FName.masterTempFile FName.masterExpFile ∈ l2 := by
  induction batches generalizing master shards l1 l2 with
  | nil =>
    exfalso
    have h0 : ([] : List FsEvent) =
        l1 ++ FsEvent.removeFile (FName.shardFile e) :: l2 := h
    cases l1 with
    | nil => exact List.noConfusion h0
    | cons a t =>
      rw [List.cons_append] at h0
      exact List.noConfusion h0
  | cons bl rest ih =>
    have htr : (mergeBatches master shards (bl :: rest)).trace =
        FsEvent.createFile FName.masterTempFile ::
          ((((bl.map fun s => FsEvent.removeFile (FName.shardFile s.1)) ++
            (if master.isSome then [FsEvent.removeFile FName.masterExpFile]
             else []) ++
            [FsEvent.rename FName.masterTempFile FName.masterExpFile])) ++
            (mergeBatches (some (master.getD [] ++ (bl.map fun s => s.2).flatten))
              (shards.filter fun s => bl.all fun t => t.1 != s.1)
              rest).trace) := rfl
    rw [htr] at h
    cases l1 with
    | nil =>
      rw [List.nil_append] at h
      injection h with h1 h2
      exact FsEvent.noConfusion h1
    | cons a l1t =>
      rw [List.cons_append] at h
      injection h with ha htail
      subst ha
      refine ⟨List.mem_cons_self _ _, ?_⟩
      rcases List.append_eq_append_iff.mp htail with ⟨a2, ha1, ha2⟩ | ⟨c2, hc1, hc2⟩
      · exact (ih _ _ a2 l2 ha2).2
      · cases c2 with
        | nil =>
          rw [List.nil_append] at hc2
          rcases mergeBatches_trace_shape
              (some (master.getD [] ++ (bl.map fun s => s.2).flatten))
              (shards.filter fun s => bl.all fun t => t.1 != s.1) rest with
            hsh | ⟨t, hsh⟩
          · rw [hsh] at hc2
            exact List.noConfusion hc2
          · rw [hsh] at hc2
            injection hc2 with hx _
            exact FsEvent.noConfusion hx
        | cons x c2t =>
          rw [List.cons_append] at hc2
          injection hc2 with hx hl2
          subst hx
          have hlast : ((bl.map fun s =>
              FsEvent.removeFile (FName.shardFile s.1)) ++
              (if master.isSome then [FsEvent.removeFile FName.masterExpFile]
               else []) ++
              [FsEvent.rename FName.masterTempFile FName.masterExpFile]).getLast?
              = some (FsEvent.rename FName.masterTempFile FName.masterExpFile) :=
            List.getLast?_concat _
          rw [hc1] at hlast
          have hren : FsEvent.rename FName.masterTempFile FName.masterExpFile ∈ c2t := by
            cases c2t with
            | nil =>
              rw [List.getLast?_concat] at hlast
              injection hlast with hx2
              exact FsEvent.noConfusion hx2
            | cons y t2 =>
              rw [List.getLast?_append_cons, List.getLast?_cons_cons] at hlast
              exact mem_of_getLast?_eq_some hlast
          rw [hl2]
          exact List.mem_append_left _ hren

/-- Witness for the amended C1: one batch holding the shard of exposure 1,
merged into an existing (empty) master store. -/
theorem claim_C1_witness :
    FsEvent.createFile FName.masterTempFile ∈
      [FsEvent.createFile FName.masterTempFile] ∧
    FsEvent.rename FName.masterTempFile FName.masterExpFile ∈
      [FsEvent.removeFile FName.masterExpFile,
        FsEvent.rename FName.masterTempFile FName.masterExpFile] :=
  claim_C1_amended (some []) [] [[(1, [])]]
    [FsEvent.createFile FName.masterTempFile]
    [FsEvent.removeFile FName.masterExpFile,
      FsEvent.rename FName.masterTempFile FName.masterExpFile]
    1 (by decide)

/-! ## Claim C2: object-catalog counts after a successful merge -/

theorem mem_insertSorted (x a : Int) : ∀ l : List Int,
    x ∈ insertSorted a l ↔ x = a ∨ x ∈ l := by
  intro l
  induction l with
  | nil => simp [insertSorted]
  | cons y ys ih =>
    by_cases hle : a ≤ y
    · simp [insertSorted, hle]
    · simp [insertSorted, hle, ih]
      tauto

theorem mem_sortInts (x : Int) : ∀ l : List Int, x ∈ sortInts l ↔ x ∈ l := by
  intro l
  induction l with
  | nil => simp [sortInts]
  | cons y ys ih =>
    simp only [sortInts, List.foldr_cons]
    rw [show List.foldr insertSorted [] ys = sortInts ys from rfl]
    rw [mem_insertSorted, ih]
    simp

theorem catalogCount_keyed (xs : List Int) (x : Int) : ∀ keys : List Int,
    catalogCount (keys.map fun v => (v, xs.count v)) x =
      if x ∈ keys then xs.count x else 0 := by
  intro keys
  induction keys with
  | nil => simp [catalogCount]
  | cons k ks ih =>
    by_cases hk : k = x
    · subst hk
      simp [catalogCount, List.find?]
    · have hne : (k == x) = false := by simp [hk]
      simp only [List.map_cons, catalogCount, List.find?, hne]
      rw [show ((List.find? (fun p => p.1 == x)
          (ks.map fun v => (v, xs.count v))).map fun p => p.2).getD 0 =
          catalogCount (ks.map fun v => (v, xs.count v)) x from rfl]
      rw [ih]
      simp [hk, Ne.symm hk]

theorem catalogCount_uniqueCounts (xs : List Int) (x : Int) :
    catalogCount (uniqueCounts xs) x = xs.count x := by
  rw [uniqueCounts, catalogCount_keyed]
  by_cases hx : x ∈ xs
  · rw [if_pos ((mem_sortInts x xs.dedup).mpr (List.mem_dedup.mpr hx))]
  · rw [if_neg (fun hc => hx (List.mem_dedup.mp ((mem_sortInts x xs.dedup).mp hc)))]
    exact (List.count_eq_zero.mpr hx).symm

theorem performUpdate_merged_objids (tool : Version) (dir : List DirEntry)
    (db : DBState) (h : (performUpdate tool dir db).merged = true) :
    (performUpdate tool dir db).db.objids =
      uniqueCounts (((performUpdate tool dir db).db.master.getD []).map
        fun r => r.objid) := by
  by_cases h1 : ((diffPhase db.shards db.catalog (scanDir dir)).expDict.isEmpty &&
      (diffPhase db.shards db.catalog (scanDir dir)).leftover.isEmpty) = true
  · have : (performUpdate tool dir db).merged = false := by
      simp [performUpdate, h1]
    rw [this] at h
    cases h
  · by_cases h2 : (processLoop (diffPhase db.shards db.catalog (scanDir dir)).expDict
        db.catalog db.shards).aborted = true
    · have : (performUpdate tool dir db).merged = false := by
        simp [performUpdate, h1, h2]
      rw [this] at h
      cases h
    · simp [performUpdate, h1, h2]

/-- **Claim C2.**  After every successful update that merged at least one
shard (`merged = true`), for every object id `x` the occurrence count in the
stored `objids` dataset equals the exact number of rows of the master store
whose object-id field is `x`; and the stored array is overwritten in full —
it is a pure function of the final master store, identical whatever the
previously stored object catalog was. -/
theorem claim_C2 (tool : Version) (dir : List DirEntry) (db : DBState)
    (h : (performUpdate tool dir db).merged = true) :
    (∀ x : Int, catalogCount (performUpdate tool dir db).db.objids x =
      (((performUpdate tool dir db).db.master.getD []).map
        fun r => r.objid).count x) ∧
    (∀ o : List (Int × Nat),
      (performUpdate tool dir
        ⟨db.version, db.catalog, db.master, db.shards, o⟩).db.objids =
      (performUpdate tool dir db).db.objids) := by
  constructor
  · intro x
    rw [performUpdate_merged_objids tool dir db h, catalogCount_uniqueCounts]
  · intro o
    by_cases h1 : ((diffPhase db.shards db.catalog (scanDir dir)).expDict.isEmpty &&
        (diffPhase db.shards db.catalog (scanDir dir)).leftover.isEmpty) = true
    · have : (performUpdate tool dir db).merged = false := by
        simp [performUpdate, h1]
      rw [this] at h
      cases h
    · by_cases h2 : (processLoop (diffPhase db.shards db.catalog (scanDir dir)).expDict
          db.catalog db.shards).aborted = true
      · have : (performUpdate tool dir db).merged = false := by
          simp [performUpdate, h1, h2]
        rw [this] at h
        cases h
      · simp [performUpdate, h1, h2]

/-- Witness for C2: the two-unit run from an empty database (which merges),
checked at object id 10 and at an arbitrary previous object catalog. -/
theorem claim_C2_witness :
    (∀ x : Int, catalogCount (performUpdate toolV [entryExp1, entryExp2]
        emptyDB).db.objids x =
      (((performUpdate toolV [entryExp1, entryExp2] emptyDB).db.master.getD
        []).map fun r => r.objid).count x) ∧
    (∀ o : List (Int × Nat),
      (performUpdate toolV [entryExp1, entryExp2]
        ⟨emptyDB.version, emptyDB.catalog, emptyDB.master, emptyDB.shards,
          o⟩).db.objids =
      (performUpdate toolV [entryExp1, entryExp2] emptyDB).db.objids) :=
  claim_C2 toolV [entryExp1, entryExp2] emptyDB (by decide)

/-! ## Equations for the diffing loop -/

theorem diffPhase_nil (shards : List (Nat × List Row)) (dict : List ExpSrc) :
    diffPhase shards [] dict = ⟨[], [], dict⟩ := rfl

theorem diffPhase_cons_none (shards : List (Nat × List Row))
    (cs : List CatalogEntry) (dict : List ExpSrc) (c0 : CatalogEntry)
    (hf : dict.find? (fun s => s.expnum == c0.expnum) = none) :
    diffPhase shards (c0 :: cs) dict = diffPhase shards cs dict := by
  simp [diffPhase, hf]

theorem diffPhase_cons_outdated (shards : List (Nat × List Row))
    (cs : List CatalogEntry) (dict : List ExpSrc) (c0 : CatalogEntry)
    (src0 : ExpSrc)
    (hf : dict.find? (fun s => s.expnum == c0.expnum) = some src0)
    (hlt : c0.lastModified < src0.mtime) :
    diffPhase shards (c0 :: cs) dict =
      ⟨c0.expnum :: (diffPhase shards cs dict).outdated,
        (diffPhase shards cs dict).leftover,
        (diffPhase shards cs dict).expDict⟩ := by
  simp [diffPhase, hf, hlt]

theorem diffPhase_cons_pop_found (shards : List (Nat × List Row))
    (cs : List CatalogEntry) (dict : List ExpSrc) (c0 : CatalogEntry)
    (src0 : ExpSrc) (sh : Nat × List Row)
    (hf : dict.find? (fun s => s.expnum == c0.expnum) = some src0)
    (hnlt : ¬ c0.lastModified < src0.mtime)
    (hsh : shards.find? (fun q => q.1 == c0.expnum) = some sh) :
    diffPhase shards (c0 :: cs) dict =
      ⟨(diffPhase shards cs (dict.filter fun s => s.expnum != c0.expnum)).outdated,
        sh :: (diffPhase shards cs
          (dict.filter fun s => s.expnum != c0.expnum)).leftover,
        (diffPhase shards cs
          (dict.filter fun s => s.expnum != c0.expnum)).expDict⟩ := by
  simp [diffPhase, hf, hnlt, hsh]

theorem diffPhase_cons_pop_none (shards : List (Nat × List Row))
    (cs : List CatalogEntry) (dict : List ExpSrc) (c0 : CatalogEntry)
    (src0 : ExpSrc)
    (hf : dict.find? (fun s => s.expnum == c0.expnum) = some src0)
    (hnlt : ¬ c0.lastModified < src0.mtime)
    (hsh : shards.find? (fun q => q.1 == c0.expnum) = none) :
    diffPhase shards (c0 :: cs) dict =
      diffPhase shards cs (dict.filter fun s => s.expnum != c0.expnum) := by
  simp [diffPhase, hf, hnlt, hsh]

/-! ## Claim C6: leftover shards of unchanged exposures are merge input -/

theorem diffPhase_pickup (shards : List (Nat × List Row)) :
    ∀ (cs : List CatalogEntry) (dict : List ExpSrc) (c : CatalogEntry)
      (src : ExpSrc) (p : Nat × List Row),
      ((dict.map fun s => s.expnum).Nodup) → c ∈ cs → src ∈ dict →
      c.expnum = src.expnum → src.mtime ≤ c.lastModified →
      shards.find? (fun q => q.1 == src.expnum) = some p →
      p ∈ (diffPhase shards cs dict).leftover := by
  intro cs
  induction cs with
  | nil => intro dict c src p _ hc; cases hc
  | cons c0 cs ih =>
    intro dict c src p hN hc hsrc hkey hmt hfind
    cases hf : dict.find? fun s => s.expnum == c0.expnum with
    | none =>
      rw [diffPhase_cons_none shards cs dict c0 hf]
      rcases List.mem_cons.mp hc with hcc | hcc
      · exfalso
        subst hcc
        exact absurd (by simp [hkey]) (List.find?_eq_none.mp hf src hsrc)
      · exact ih dict c src p hN hcc hsrc hkey hmt hfind
    | some src0 =>
      have hs0mem : src0 ∈ dict := List.mem_of_find?_eq_some hf
      have hs0key : src0.expnum = c0.expnum := by
        have := List.find?_some hf
        simpa using this
      by_cases hlt : c0.lastModified < src0.mtime
      · rw [diffPhase_cons_outdated shards cs dict c0 src0 hf hlt]
        rcases List.mem_cons.mp hc with hcc | hcc
        · exfalso
          subst hcc
          have hsame : src0 = src :=
            List.inj_on_of_nodup_map hN hs0mem hsrc (by rw [hs0key, hkey])
          rw [hsame] at hlt
          omega
        · exact ih dict c src p hN hcc hsrc hkey hmt hfind
      · by_cases hk0 : c0.expnum = src.expnum
        · have hshfind : shards.find? (fun q => q.1 == c0.expnum) = some p := by
            rw [hk0]
            exact hfind
          rw [diffPhase_cons_pop_found shards cs dict c0 src0 p hf hlt hshfind]
          exact List.mem_cons_self _ _
        · have hcc : c ∈ cs := by
            rcases List.mem_cons.mp hc with hcc | hcc
            · exfalso
              subst hcc
              exact hk0 hkey
            · exact hcc
          have hsrc2 : src ∈ dict.filter fun s => s.expnum != c0.expnum := by
            rw [List.mem_filter]
            refine ⟨hsrc, ?_⟩
            simp only [bne_iff_ne, ne_eq]
            exact fun h => hk0 h.symm
          have hN2 : (((dict.filter fun s => s.expnum != c0.expnum).map
              fun s => s.expnum).Nodup) :=
            List.Nodup.sublist (List.Sublist.map _ (List.filter_sublist dict)) hN
          cases hsh : shards.find? fun q => q.1 == c0.expnum with
          | none =>
            rw [diffPhase_cons_pop_none shards cs dict c0 src0 hf hlt hsh]
            exact ih _ c src p hN2 hcc hsrc2 hkey hmt hfind
          | some sh =>
            rw [diffPhase_cons_pop_found shards cs dict c0 src0 sh hf hlt hsh]
            exact List.mem_cons_of_mem sh
              (ih _ c src p hN2 hcc hsrc2 hkey hmt hfind)

/-- **Claim C6.**  Every leftover shard file of a known exposure id whose
source file is present and classified as unchanged (its mtime does not
exceed the stored `lastModified`) is included in the merge input
(`temp_files`) of the current update — and unless the update aborts on a
later validation error, the merge branch actually runs. -/
theorem claim_C6 (tool : Version) (dir : List DirEntry) (db : DBState)
    (c : CatalogEntry) (src : ExpSrc) (p : Nat × List Row)
    (hN : ((scanDir dir).map fun s => s.expnum).Nodup)
    (hc : c ∈ db.catalog) (hsrc : src ∈ scanDir dir)
    (hkey : c.expnum = src.expnum) (hmt : src.mtime ≤ c.lastModified)
    (hfind : db.shards.find? (fun q => q.1 == src.expnum) = some p) :
    p ∈ (performUpdate tool dir db).mergeInput ∧
    ((performUpdate tool dir db).aborted = false →
      (performUpdate tool dir db).merged = true) := by
  have hpick : p ∈ (diffPhase db.shards db.catalog (scanDir dir)).leftover :=
    diffPhase_pickup db.shards db.catalog (scanDir dir) c src p hN hc hsrc
      hkey hmt hfind
  have hlo : (diffPhase db.shards db.catalog (scanDir dir)).leftover.isEmpty
      = false := by
    cases hl : (diffPhase db.shards db.catalog (scanDir dir)).leftover with
    | nil => rw [hl] at hpick; cases hpick
    | cons q t => rfl
  have h1 : ((diffPhase db.shards db.catalog (scanDir dir)).expDict.isEmpty &&
      (diffPhase db.shards db.catalog (scanDir dir)).leftover.isEmpty)
      = false := by
    rw [hlo, Bool.and_false]
  constructor
  · by_cases h2 : (processLoop (diffPhase db.shards db.catalog
        (scanDir dir)).expDict db.catalog db.shards).aborted = true
    · have : (performUpdate tool dir db).mergeInput =
          (diffPhase db.shards db.catalog (scanDir dir)).leftover ++
          (processLoop (diffPhase db.shards db.catalog (scanDir dir)).expDict
            db.catalog db.shards).newTemp := by
        simp [performUpdate, h1, h2]
      rw [this]
      exact List.mem_append_left _ hpick
    · have : (performUpdate tool dir db).mergeInput =
          (diffPhase db.shards db.catalog (scanDir dir)).leftover ++
          (processLoop (diffPhase db.shards db.catalog (scanDir dir)).expDict
            db.catalog db.shards).newTemp := by
        simp [performUpdate, h1, h2]
      rw [this]
      exact List.mem_append_left _ hpick
  · intro hab
    by_cases h2 : (processLoop (diffPhase db.shards db.catalog
        (scanDir dir)).expDict db.catalog db.shards).aborted = true
    · have : (performUpdate tool dir db).aborted = true := by
        simp [performUpdate, h1, h2]
      rw [this] at hab
      cases hab
    · simp [performUpdate, h1, h2]

/-- Witness for C6: exposure 1 known with `lastModified = 5`, its source
file present with the same mtime (unchanged), and a leftover shard
`temp_exp1.hdf5` on disk; the shard is merge input and the merge runs. -/
theorem claim_C6_witness :
    ((1 : Nat), [(⟨10, 1⟩ : Row)]) ∈
      (performUpdate toolV [entryExp1]
        ⟨some toolV, [⟨1, 5⟩], some [], [(1, [⟨10, 1⟩])], []⟩).mergeInput ∧
    ((performUpdate toolV [entryExp1]
        ⟨some toolV, [⟨1, 5⟩], some [], [(1, [⟨10, 1⟩])], []⟩).aborted = false →
      (performUpdate toolV [entryExp1]
        ⟨some toolV, [⟨1, 5⟩], some [], [(1, [⟨10, 1⟩])], []⟩).merged = true) :=
  claim_C6 toolV [entryExp1]
    ⟨some toolV, [⟨1, 5⟩], some [], [(1, [⟨10, 1⟩])], []⟩
    ⟨1, 5⟩ ⟨1, 5, [⟨10, 1⟩], 1⟩ (1, [⟨10, 1⟩])
    (by decide) (by decide) (by decide) rfl (by decide) (by decide)

/-! ## Claim C3: idempotence of `update` — diffing-loop lemmas -/

theorem diffPhase_expDict_sublist (shards : List (Nat × List Row)) :
    ∀ (cs : List CatalogEntry) (dict : List ExpSrc),
      (diffPhase shards cs dict).expDict.Sublist dict := by
  intro cs
  induction cs with
  | nil => intro dict; exact List.Sublist.refl dict
  | cons c0 cs ih =>
    intro dict
    cases hf : dict.find? fun s => s.expnum == c0.expnum with
    | none =>
      rw [diffPhase_cons_none shards cs dict c0 hf]
      exact ih dict
    | some src0 =>
      by_cases hlt : c0.lastModified < src0.mtime
      · rw [diffPhase_cons_outdated shards cs dict c0 src0 hf hlt]
        exact ih dict
      · have hsub : (diffPhase shards cs
            (dict.filter fun s => s.expnum != c0.expnum)).expDict.Sublist dict :=
          List.Sublist.trans (ih _) (List.filter_sublist dict)
        cases hsh : shards.find? fun q => q.1 == c0.expnum with
        | none =>
          rw [diffPhase_cons_pop_none shards cs dict c0 src0 hf hlt hsh]
          exact hsub
        | some sh =>
          rw [diffPhase_cons_pop_found shards cs dict c0 src0 sh hf hlt hsh]
          exact hsub

theorem diffPhase_keep (shards : List (Nat × List Row)) :
    ∀ (cs : List CatalogEntry) (dict : List ExpSrc) (src : ExpSrc),
      src ∈ dict → (∀ c ∈ cs, c.expnum ≠ src.expnum) →
      src ∈ (diffPhase shards cs dict).expDict := by
  intro cs
  induction cs with
  | nil => intro dict src hsrc _; exact hsrc
  | cons c0 cs ih =>
    intro dict src hsrc hne
    have hne0 : c0.expnum ≠ src.expnum := hne c0 (List.mem_cons_self _ _)
    have hnet : ∀ c ∈ cs, c.expnum ≠ src.expnum :=
      fun c hc => hne c (List.mem_cons_of_mem c0 hc)
    cases hf : dict.find? fun s => s.expnum == c0.expnum with
    | none =>
      rw [diffPhase_cons_none shards cs dict c0 hf]
      exact ih dict src hsrc hnet
    | some src0 =>
      by_cases hlt : c0.lastModified < src0.mtime
      · rw [diffPhase_cons_outdated shards cs dict c0 src0 hf hlt]
        exact ih dict src hsrc hnet
      · have hsrc2 : src ∈ dict.filter fun s => s.expnum != c0.expnum := by
          rw [List.mem_filter]
          refine ⟨hsrc, ?_⟩
          simp only [bne_iff_ne, ne_eq]
          exact fun h => hne0 h.symm
        cases hsh : shards.find? fun q => q.1 == c0.expnum with
        | none =>
          rw [diffPhase_cons_pop_none shards cs dict c0 src0 hf hlt hsh]
          exact ih _ src hsrc2 hnet
        | some sh =>
          rw [diffPhase_cons_pop_found shards cs dict c0 src0 sh hf hlt hsh]
          exact ih _ src hsrc2 hnet

theorem diffPhase_popped (shards : List (Nat × List Row)) :
    ∀ (cs : List CatalogEntry) (dict : List ExpSrc) (src : ExpSrc),
      ((dict.map fun s => s.expnum).Nodup) → src ∈ dict →
      src ∉ (diffPhase shards cs dict).expDict →
      ∃ c ∈ cs, c.expnum = src.expnum ∧ src.mtime ≤ c.lastModified := by
  intro cs
  induction cs with
  | nil =>
    intro dict src _ hsrc hout
    rw [diffPhase_nil] at hout
    exact absurd hsrc hout
  | cons c0 cs ih =>
    intro dict src hN hsrc hout
    cases hf : dict.find? fun s => s.expnum == c0.expnum with
    | none =>
      rw [diffPhase_cons_none shards cs dict c0 hf] at hout
      obtain ⟨c, hc, hp⟩ := ih dict src hN hsrc hout
      exact ⟨c, List.mem_cons_of_mem c0 hc, hp⟩
    | some src0 =>
      have hs0mem : src0 ∈ dict := List.mem_of_find?_eq_some hf
      have hs0key : src0.expnum = c0.expnum := by
        have := List.find?_some hf
        simpa using this
      by_cases hlt : c0.lastModified < src0.mtime
      · rw [diffPhase_cons_outdated shards cs dict c0 src0 hf hlt] at hout
        obtain ⟨c, hc, hp⟩ := ih dict src hN hsrc hout
        exact ⟨c, List.mem_cons_of_mem c0 hc, hp⟩
      · by_cases hk0 : c0.expnum = src.expnum
        · have hsame : src0 = src :=
            List.inj_on_of_nodup_map hN hs0mem hsrc (by rw [hs0key, hk0])
          refine ⟨c0, List.mem_cons_self _ _, hk0, ?_⟩
          rw [← hsame]
          omega
        · have hsrc2 : src ∈ dict.filter fun s => s.expnum != c0.expnum := by
            rw [List.mem_filter]
            refine ⟨hsrc, ?_⟩
            simp only [bne_iff_ne, ne_eq]
            exact fun h => hk0 h.symm
          have hN2 : (((dict.filter fun s => s.expnum != c0.expnum).map
              fun s => s.expnum).Nodup) :=
            List.Nodup.sublist (List.Sublist.map _ (List.filter_sublist dict)) hN
          have hout2 : src ∉ (diffPhase shards cs
              (dict.filter fun s => s.expnum != c0.expnum)).expDict := by
            cases hsh : shards.find? fun q => q.1 == c0.expnum with
            | none =>
              rw [diffPhase_cons_pop_none shards cs dict c0 src0 hf hlt hsh] at hout
              exact hout
            | some sh =>
              rw [diffPhase_cons_pop_found shards cs dict c0 src0 sh hf hlt hsh] at hout
              exact hout
          obtain ⟨c, hc, hp⟩ := ih _ src hN2 hsrc2 hout2
          exact ⟨c, List.mem_cons_of_mem c0 hc, hp⟩

theorem diffPhase_outdated_sub (shards : List (Nat × List Row)) :
    ∀ (cs : List CatalogEntry) (dict : List ExpSrc),
      ((cs.map fun c => c.expnum).Nodup) →
      ∀ e ∈ (diffPhase shards cs dict).outdated,
        ∃ src ∈ (diffPhase shards cs dict).expDict, src.expnum = e := by
  intro cs
  induction cs with
  | nil =>
    intro dict _ e he
    rw [diffPhase_nil] at he
    cases he
  | cons c0 cs ih =>
    intro dict hN e he
    have hNt : ((cs.map fun c => c.expnum).Nodup) := by
      rw [List.map_cons] at hN
      exact hN.of_cons
    cases hf : dict.find? fun s => s.expnum == c0.expnum with
    | none =>
      rw [diffPhase_cons_none shards cs dict c0 hf] at he ⊢
      exact ih dict hNt e he
    | some src0 =>
      have hs0mem : src0 ∈ dict := List.mem_of_find?_eq_some hf
      have hs0key : src0.expnum = c0.expnum := by
        have := List.find?_some hf
        simpa using this
      by_cases hlt : c0.lastModified < src0.mtime
      · rw [diffPhase_cons_outdated shards cs dict c0 src0 hf hlt] at he ⊢
        rcases List.mem_cons.mp he with he0 | het
        · refine ⟨src0, ?_, by rw [hs0key, he0]⟩
          refine diffPhase_keep shards cs dict src0 hs0mem ?_
          intro c hc hceq
          rw [List.map_cons] at hN
          apply (List.nodup_cons.mp hN).1
          rw [← hs0key, ← hceq]
          exact List.mem_map_of_mem _ hc
        · exact ih dict hNt e het
      · cases hsh : shards.find? fun q => q.1 == c0.expnum with
        | none =>
          rw [diffPhase_cons_pop_none shards cs dict c0 src0 hf hlt hsh] at he ⊢
          exact ih _ hNt e he
        | some sh =>
          rw [diffPhase_cons_pop_found shards cs dict c0 src0 sh hf hlt hsh] at he ⊢
          exact ih _ hNt e he

theorem diffPhase_drain (shards : List (Nat × List Row)) :
    ∀ (cs : List CatalogEntry) (dict : List ExpSrc),
      ((cs.map fun c => c.expnum).Nodup) →
      (∀ src ∈ dict, ∃ c ∈ cs,
        c.expnum = src.expnum ∧ src.mtime ≤ c.lastModified) →
      (∀ src ∈ dict, ∀ q ∈ shards, q.1 ≠ src.expnum) →
      diffPhase shards cs dict = ⟨[], [], []⟩ := by
  intro cs
  induction cs with
  | nil =>
    intro dict _ hp1 _
    cases hdict : dict with
    | nil => rw [diffPhase_nil]
    | cons a t =>
      exfalso
      obtain ⟨c, hc, _⟩ := hp1 a (by rw [hdict]; exact List.mem_cons_self a t)
      cases hc
  | cons c0 cs ih =>
    intro dict hN hp1 hp2
    have hNt : ((cs.map fun c => c.expnum).Nodup) := by
      rw [List.map_cons] at hN
      exact hN.of_cons
    have hN0 : c0.expnum ∉ cs.map fun c => c.expnum := by
      rw [List.map_cons] at hN
      exact (List.nodup_cons.mp hN).1
    cases hf : dict.find? fun s => s.expnum == c0.expnum with
    | none =>
      rw [diffPhase_cons_none shards cs dict c0 hf]
      refine ih dict hNt ?_ hp2
      intro src hsrc
      obtain ⟨c, hc, hck, hcm⟩ := hp1 src hsrc
      rcases List.mem_cons.mp hc with hc0 | hct
      · exfalso
        subst hc0
        exact absurd (by simp [hck.symm]) (List.find?_eq_none.mp hf src hsrc)
      · exact ⟨c, hct, hck, hcm⟩
    | some src0 =>
      have hs0mem : src0 ∈ dict := List.mem_of_find?_eq_some hf
      have hs0key : src0.expnum = c0.expnum := by
        have := List.find?_some hf
        simpa using this
      obtain ⟨c1, hc1, hc1k, hc1m⟩ := hp1 src0 hs0mem
      have hc1eq : c1 = c0 := by
        rcases List.mem_cons.mp hc1 with h0 | ht
        · exact h0
        · exfalso
          apply hN0
          rw [← hs0key, ← hc1k]
          exact List.mem_map_of_mem _ ht
      have hnlt : ¬ c0.lastModified < src0.mtime := by
        rw [hc1eq] at hc1m
        omega
      have hsh : shards.find? (fun q => q.1 == c0.expnum) = none := by
        rw [List.find?_eq_none]
        intro q hq
        simp only [beq_iff_eq]
        rw [← hs0key]
        exact hp2 src0 hs0mem q hq
      rw [diffPhase_cons_pop_none shards cs dict c0 src0 hf hnlt hsh]
      refine ih _ hNt ?_ ?_
      · intro src hsrc
        have hsrcd : src ∈ dict := List.mem_of_mem_filter hsrc
        have hsrck : src.expnum ≠ c0.expnum := by
          have := (List.mem_filter.mp hsrc).2
          simpa [bne_iff_ne] using this
        obtain ⟨c, hc, hck, hcm⟩ := hp1 src hsrcd
        rcases List.mem_cons.mp hc with h0 | ht
        · exfalso
          subst h0
          exact hsrck hck.symm
        · exact ⟨c, ht, hck, hcm⟩
      · intro src hsrc
        exact hp2 src (List.mem_of_mem_filter hsrc)

/-! ## Claim C3 — processing-loop lemmas -/

theorem processLoop_not_aborted : ∀ (units : List ExpSrc)
    (cat : List CatalogEntry) (sh : List (Nat × List Row)),
    (processLoop units cat sh).aborted = false →
    ∀ u ∈ units, validUnit u = true := by
  intro units
  induction units with
  | nil => intro cat sh _ u hu; cases hu
  | cons u0 us ih =>
    intro cat sh hab u hu
    by_cases hv : validUnit u0 = true
    · rcases List.mem_cons.mp hu with h0 | ht
      · rw [h0]; exact hv
      · simp only [processLoop, hv, if_true] at hab
        exact ih _ _ hab u ht
    · exfalso
      have hv2 : validUnit u0 = false := by
        cases hvv : validUnit u0 with
        | true => exact absurd hvv hv
        | false => rfl
      simp only [processLoop, hv2] at hab
      cases hab

theorem processLoop_newTemp : ∀ (units : List ExpSrc)
    (cat : List CatalogEntry) (sh : List (Nat × List Row)),
    (∀ u ∈ units, validUnit u = true) →
    (processLoop units cat sh).newTemp =
      units.map fun u => (u.expnum, u.rows) := by
  intro units
  induction units with
  | nil => intro cat sh _; rfl
  | cons u0 us ih =>
    intro cat sh hv
    have hv0 : validUnit u0 = true := hv u0 (List.mem_cons_self _ _)
    simp only [processLoop, hv0, if_true, List.map_cons]
    rw [ih _ _ (fun v hvv => hv v (List.mem_cons_of_mem u0 hvv))]

theorem upsertCatalog_self_mem (uid xid mtime : Nat) :
    ∀ cat : List CatalogEntry,
      (⟨xid, mtime⟩ : CatalogEntry) ∈ upsertCatalog uid xid mtime cat := by
  intro cat
  induction cat with
  | nil => exact List.mem_singleton_self _
  | cons c0 cs ih =>
    by_cases h0 : c0.expnum = uid
    · simp only [upsertCatalog, h0, if_true]
      exact List.mem_cons_self _ _
    · simp only [upsertCatalog, h0, if_false]
      exact List.mem_cons_of_mem c0 ih

theorem upsertCatalog_keep (uid xid mtime : Nat) :
    ∀ (cat : List CatalogEntry) (c : CatalogEntry),
      c ∈ cat → c.expnum ≠ uid → c ∈ upsertCatalog uid xid mtime cat := by
  intro cat
  induction cat with
  | nil => intro c hc; cases hc
  | cons c0 cs ih =>
    intro c hc hne
    by_cases h0 : c0.expnum = uid
    · simp only [upsertCatalog, h0, if_true]
      rcases List.mem_cons.mp hc with he | ht
      · exfalso; rw [he] at hne; exact hne h0
      · exact List.mem_cons_of_mem _ ht
    · simp only [upsertCatalog, h0, if_false]
      rcases List.mem_cons.mp hc with he | ht
      · rw [he]; exact List.mem_cons_self _ _
      · exact List.mem_cons_of_mem c0 (ih c ht hne)

theorem upsertCatalog_keys (uid mtime : Nat) :
    ∀ cat : List CatalogEntry,
      (upsertCatalog uid uid mtime cat).map (fun c => c.expnum) =
        if uid ∈ cat.map (fun c => c.expnum)
        then cat.map (fun c => c.expnum)
        else cat.map (fun c => c.expnum) ++ [uid] := by
  intro cat
  induction cat with
  | nil => simp [upsertCatalog]
  | cons c0 cs ih =>
    by_cases h0 : c0.expnum = uid
    · simp only [upsertCatalog, h0, if_true, List.map_cons]
      rw [if_pos (List.mem_cons_self _ _)]
    · simp only [upsertCatalog, h0, if_false, List.map_cons, ih]
      have hmem : uid ∈ c0.expnum :: cs.map (fun c => c.expnum) ↔
          uid ∈ cs.map (fun c => c.expnum) := by
        constructor
        · intro h
          rcases List.mem_cons.mp h with he | ht
          · exact absurd he.symm h0
          · exact ht
        · exact List.mem_cons_of_mem _
      by_cases ht : uid ∈ cs.map (fun c => c.expnum)
      · rw [if_pos ht, if_pos (hmem.mpr ht)]
      · rw [if_neg ht, if_neg (fun hc => ht (hmem.mp hc)), List.cons_append]

theorem upsertCatalog_nodup (uid mtime : Nat) (cat : List CatalogEntry)
    (hN : (cat.map (fun c => c.expnum)).Nodup) :
    ((upsertCatalog uid uid mtime cat).map (fun c => c.expnum)).Nodup := by
  rw [upsertCatalog_keys]
  by_cases h : uid ∈ cat.map (fun c => c.expnum)
  · rw [if_pos h]; exact hN
  · rw [if_neg h]
    rw [List.nodup_append]
    refine ⟨hN, List.nodup_singleton uid, ?_⟩
    intro a ha hb
    have hau : a = uid := by simpa using hb
    rw [hau] at ha
    exact h ha

theorem processLoop_catalog_keep : ∀ (units : List ExpSrc)
    (cat : List CatalogEntry) (sh : List (Nat × List Row)) (c : CatalogEntry),
    c ∈ cat → (∀ u ∈ units, u.expnum ≠ c.expnum) →
    c ∈ (processLoop units cat sh).catalog := by
  intro units
  induction units with
  | nil => intro cat sh c hc _; exact hc
  | cons u0 us ih =>
    intro cat sh c hc hne
    by_cases hv : validUnit u0 = true
    · simp only [processLoop, hv, if_true]
      refine ih _ _ c ?_ (fun u hu => hne u (List.mem_cons_of_mem u0 hu))
      exact upsertCatalog_keep u0.expnum u0.xtrExpnum u0.mtime cat c hc
        (fun hk => hne u0 (List.mem_cons_self _ _) hk.symm)
    · have hv2 : validUnit u0 = false := by
        cases hvv : validUnit u0 with
        | true => exact absurd hvv hv
        | false => rfl
      simp only [processLoop, hv2]
      exact hc

theorem processLoop_catalog_entry : ∀ (units : List ExpSrc)
    (cat : List CatalogEntry) (sh : List (Nat × List Row)),
    (∀ u ∈ units, validUnit u = true) →
    ((units.map fun u => u.expnum).Nodup) →
    (∀ u ∈ units, u.xtrExpnum = u.expnum) →
    ∀ u ∈ units, (⟨u.expnum, u.mtime⟩ : CatalogEntry) ∈
      (processLoop units cat sh).catalog := by
  intro units
  induction units with
  | nil => intro cat sh _ _ _ u hu; cases hu
  | cons u0 us ih =>
    intro cat sh hv hN hx u hu
    have hv0 : validUnit u0 = true := hv u0 (List.mem_cons_self _ _)
    have hx0 : u0.xtrExpnum = u0.expnum := hx u0 (List.mem_cons_self _ _)
    simp only [processLoop, hv0, if_true]
    rcases List.mem_cons.mp hu with he | ht
    · subst he
      refine processLoop_catalog_keep us _ _ _ ?_ ?_
      · rw [hx0]
        exact upsertCatalog_self_mem u.expnum u.expnum u.mtime cat
      · intro v hvv hk
        rw [List.map_cons, List.nodup_cons] at hN
        apply hN.1
        have hk2 : v.expnum = u.expnum := hk
        rw [← hk2]
        exact List.mem_map_of_mem _ hvv
    · refine ih _ _ (fun v hvv => hv v (List.mem_cons_of_mem u0 hvv)) ?_
        (fun v hvv => hx v (List.mem_cons_of_mem u0 hvv)) u ht
      rw [List.map_cons, List.nodup_cons] at hN
      exact hN.2

theorem processLoop_catalog_nodup : ∀ (units : List ExpSrc)
    (cat : List CatalogEntry) (sh : List (Nat × List Row)),
    (∀ u ∈ units, u.xtrExpnum = u.expnum) →
    ((cat.map fun c => c.expnum).Nodup) →
    (((processLoop units cat sh).catalog.map fun c => c.expnum).Nodup) := by
  intro units
  induction units with
  | nil => intro cat sh _ hN; exact hN
  | cons u0 us ih =>
    intro cat sh hx hN
    have hx0 : u0.xtrExpnum = u0.expnum := hx u0 (List.mem_cons_self _ _)
    by_cases hv : validUnit u0 = true
    · simp only [processLoop, hv, if_true]
      refine ih _ _ (fun v hvv => hx v (List.mem_cons_of_mem u0 hvv)) ?_
      rw [hx0]
      exact upsertCatalog_nodup u0.expnum u0.mtime cat hN
    · have hv2 : validUnit u0 = false := by
        cases hvv : validUnit u0 with
        | true => exact absurd hvv hv
        | false => rfl
      simp only [processLoop, hv2]
      exact hN

theorem upsertShard_mem (e : Nat) (rows : List Row) :
    ∀ (l : List (Nat × List Row)) (q : Nat × List Row),
      q ∈ upsertShard e rows l → q = (e, rows) ∨ q ∈ l := by
  intro l
  induction l with
  | nil =>
    intro q hq
    simp only [upsertShard] at hq
    exact Or.inl (List.mem_singleton.mp hq)
  | cons s0 ss ih =>
    intro q hq
    by_cases h0 : s0.1 = e
    · simp only [upsertShard, h0, if_true] at hq
      rcases List.mem_cons.mp hq with he | ht
      · exact Or.inl he
      · exact Or.inr (List.mem_cons_of_mem s0 ht)
    · simp only [upsertShard, h0, if_false] at hq
      rcases List.mem_cons.mp hq with he | ht
      · exact Or.inr (he ▸ List.mem_cons_self s0 ss)
      · rcases ih q ht with hl | hr
        · exact Or.inl hl
        · exact Or.inr (List.mem_cons_of_mem s0 hr)

theorem processLoop_shards_sub : ∀ (units : List ExpSrc)
    (cat : List CatalogEntry) (sh : List (Nat × List Row))
    (q : Nat × List Row), q ∈ (processLoop units cat sh).shards →
    q.1 ∈ sh.map (fun s => s.1) ∨ ∃ u ∈ units, q.1 = u.expnum := by
  intro units
  induction units with
  | nil => intro cat sh q hq; exact Or.inl (List.mem_map_of_mem _ hq)
  | cons u0 us ih =>
    intro cat sh q hq
    by_cases hv : validUnit u0 = true
    · simp only [processLoop, hv, if_true] at hq
      rcases ih _ _ q hq with hl | ⟨u, hu, hk⟩
      · rw [List.mem_map] at hl
        obtain ⟨s, hs, hsk⟩ := hl
        rcases upsertShard_mem u0.expnum u0.rows sh s hs with he | hm
        · refine Or.inr ⟨u0, List.mem_cons_self _ _, ?_⟩
          rw [← hsk, he]
        · exact Or.inl (hsk ▸ List.mem_map_of_mem _ hm)
      · exact Or.inr ⟨u, List.mem_cons_of_mem u0 hu, hk⟩
    · have hv2 : validUnit u0 = false := by
        cases hvv : validUnit u0 with
        | true => exact absurd hvv hv
        | false => rfl
      simp only [processLoop, hv2] at hq
      exact Or.inl (List.mem_map_of_mem _ hq)

/-! ## Claim C3 — batch-merge and slicing lemmas -/

theorem mergeBatches_shards_mem : ∀ (bs : List (List (Nat × List Row)))
    (master : Option (List Row)) (sh : List (Nat × List Row))
    (q : Nat × List Row), q ∈ (mergeBatches master sh bs).shards →
    q ∈ sh ∧ ∀ b ∈ bs, ∀ t ∈ b, t.1 ≠ q.1 := by
  intro bs
  induction bs with
  | nil => intro master sh q hq; exact ⟨hq, fun b hb => absurd hb (by simp)⟩
  | cons bl rest ih =>
    intro master sh q hq
    have hq2 : q ∈ (mergeBatches
        (some (master.getD [] ++ (bl.map fun s => s.2).flatten))
        (sh.filter fun s => bl.all fun t => t.1 != s.1) rest).shards := hq
    obtain ⟨hqf, hrest⟩ := ih _ _ q hq2
    rw [List.mem_filter] at hqf
    have hbl : ∀ t ∈ bl, t.1 ≠ q.1 := by
      intro t ht
      have := List.all_eq_true.mp hqf.2 t ht
      simpa [bne_iff_ne] using this
    refine ⟨hqf.1, ?_⟩
    intro b hb
    rcases List.mem_cons.mp hb with he | hm
    · rw [he]; exact hbl
    · exact hrest b hm

theorem take_add_split {α : Type} : ∀ (m : Nat) (l : List α) (k : Nat),
    l.take (m + k) = l.take m ++ (l.drop m).take k := by
  intro m
  induction m with
  | zero => intro l k; simp
  | succ m ih =>
    intro l k
    cases l with
    | nil => simp
    | cons a t =>
      have harith : m + 1 + k = (m + k) + 1 := by omega
      rw [harith]
      simp only [List.take_succ_cons, List.drop_succ_cons, List.cons_append]
      rw [ih t k]

theorem sliceChain_flatten_slices {α : Type} (n : Nat) :
    ∀ (b : Nat) (l : List (Nat × Nat)), SliceChain n b l →
      ∀ tf : List α, tf.length = n →
        (l.map fun ab => (tf.drop ab.1).take (ab.2 - ab.1)).flatten =
          (tf.drop b).take (n - b) := by
  intro b l h
  induction h with
  | nil =>
    intro tf hlen
    rw [List.map_nil, List.flatten_nil]
    rw [List.drop_eq_nil_of_le (by omega), Nat.sub_self, List.take_zero]
  | last b hb hr =>
    intro tf hlen
    simp
  | step b l hb hl ih =>
    intro tf hlen
    simp only [List.map_cons, List.flatten_cons, ih tf hlen]
    have h100 : b + 100 - b = 100 := by omega
    rw [h100]
    have harith : n - b = 100 + (n - (b + 100)) := by omega
    rw [harith, take_add_split, List.drop_drop]

theorem sliceList_flatten (tf : List (Nat × List Row)) :
    (sliceList tf).flatten = tf := by
  rw [sliceList]
  rw [sliceChain_flatten_slices tf.length 0 (dyn_range tf.length 100)
    (dyn_range_chain tf.length) tf rfl]
  simp

theorem sliceList_mem (tf : List (Nat × List Row)) (t : Nat × List Row)
    (ht : t ∈ tf) : ∃ b ∈ sliceList tf, t ∈ b := by
  have : t ∈ (sliceList tf).flatten := by rw [sliceList_flatten]; exact ht
  obtain ⟨b, hb, htb⟩ := List.mem_flatten.mp this
  exact ⟨b, hb, htb⟩

/-- **Claim C3, amended.**  The claim as stated is false on the code: the
catalog row written for a unit is keyed by the *companion* file's exposure-id
field, which is never validated (see `claim_C3_counterexample` — a companion
row carrying the wrong id makes the second no-change run report one new unit
and re-merge the rows).  Amended by exactly what that counterexample forces:
*provided every unit's companion metadata row carries the unit's own
exposure id* (and exposure ids in the scan and in the catalog are pairwise
distinct, which dict keys and the tool's upsert maintain), running `update`
twice with no filesystem changes between the runs, with the first run not
aborted by a validation error, makes the second run report zero new and
zero outdated units, perform no merge, not abort, and leave the master
store's row list identical to what the first run produced. -/
theorem claim_C3 (tool : Version) (dir : List DirEntry) (db : DBState)
    (hS : ((scanDir dir).map fun s => s.expnum).Nodup)
    (hC : (db.catalog.map fun c => c.expnum).Nodup)
    (hX : ∀ s ∈ scanDir dir, s.xtrExpnum = s.expnum)
    (hA : (performUpdate tool dir db).aborted = false) :
    (performUpdate tool dir (performUpdate tool dir db).db).nNew = 0 ∧
    (performUpdate tool dir (performUpdate tool dir db).db).nOutdated = 0 ∧
    (performUpdate tool dir (performUpdate tool dir db).db).merged = false ∧
    (performUpdate tool dir (performUpdate tool dir db).db).aborted = false ∧
    (performUpdate tool dir (performUpdate tool dir db).db).db.master =
      (performUpdate tool dir db).db.master := by
  by_cases h1 : ((diffPhase db.shards db.catalog (scanDir dir)).expDict.isEmpty &&
      (diffPhase db.shards db.catalog (scanDir dir)).leftover.isEmpty) = true
  · -- first run found nothing to do: it only set the version attribute
    have hpair : (diffPhase db.shards db.catalog (scanDir dir)).expDict.isEmpty
        = true ∧
        (diffPhase db.shards db.catalog (scanDir dir)).leftover.isEmpty
        = true := by
      simpa using h1
    have hed : (diffPhase db.shards db.catalog (scanDir dir)).expDict = [] := by
      cases hl : (diffPhase db.shards db.catalog (scanDir dir)).expDict with
      | nil => rfl
      | cons a t =>
        exfalso
        have := hpair.1
        rw [hl] at this
        exact absurd this (by simp)
    have hlo : (diffPhase db.shards db.catalog (scanDir dir)).leftover = [] := by
      cases hl : (diffPhase db.shards db.catalog (scanDir dir)).leftover with
      | nil => rfl
      | cons a t =>
        exfalso
        have := hpair.2
        rw [hl] at this
        exact absurd this (by simp)
    have hod : (diffPhase db.shards db.catalog (scanDir dir)).outdated = [] := by
      cases hl : (diffPhase db.shards db.catalog (scanDir dir)).outdated with
      | nil => rfl
      | cons e t =>
        exfalso
        obtain ⟨src, hsrc, _⟩ := diffPhase_outdated_sub db.shards db.catalog
          (scanDir dir) hC e (by rw [hl]; exact List.mem_cons_self e t)
        rw [hed] at hsrc
        cases hsrc
    have hr1 : (performUpdate tool dir db).db =
        ⟨some (setdefaultVersion db.version tool), db.catalog, db.master,
          db.shards, db.objids⟩ := by
      simp [performUpdate, h1]
    rw [hr1]
    refine ⟨?_, ?_, ?_, ?_, ?_⟩ <;> simp [performUpdate, h1, hed, hlo, hod]
  · by_cases h2 : (processLoop (diffPhase db.shards db.catalog
        (scanDir dir)).expDict db.catalog db.shards).aborted = true
    · exfalso
      have : (performUpdate tool dir db).aborted = true := by
        simp [performUpdate, h1, h2]
      rw [this] at hA
      cases hA
    · have h2f : (processLoop (diffPhase db.shards db.catalog
          (scanDir dir)).expDict db.catalog db.shards).aborted = false := by
        revert h2
        cases (processLoop (diffPhase db.shards db.catalog
            (scanDir dir)).expDict db.catalog db.shards).aborted with
        | true => intro h; exact absurd rfl h
        | false => intro _; rfl
      have hr1 : (performUpdate tool dir db).db =
          ⟨some (setdefaultVersion db.version tool),
            (processLoop (diffPhase db.shards db.catalog
              (scanDir dir)).expDict db.catalog db.shards).catalog,
            (mergeBatches (compactMaster db.master
                (diffPhase db.shards db.catalog (scanDir dir)).outdated).1
              (processLoop (diffPhase db.shards db.catalog
                (scanDir dir)).expDict db.catalog db.shards).shards
              (sliceList ((diffPhase db.shards db.catalog
                  (scanDir dir)).leftover ++
                (processLoop (diffPhase db.shards db.catalog
                  (scanDir dir)).expDict db.catalog db.shards).newTemp))).master,
            (mergeBatches (compactMaster db.master
                (diffPhase db.shards db.catalog (scanDir dir)).outdated).1
              (processLoop (diffPhase db.shards db.catalog
                (scanDir dir)).expDict db.catalog db.shards).shards
              (sliceList ((diffPhase db.shards db.catalog
                  (scanDir dir)).leftover ++
                (processLoop (diffPhase db.shards db.catalog
                  (scanDir dir)).expDict db.catalog db.shards).newTemp))).shards,
            uniqueCounts (((mergeBatches (compactMaster db.master
                (diffPhase db.shards db.catalog (scanDir dir)).outdated).1
              (processLoop (diffPhase db.shards db.catalog
                (scanDir dir)).expDict db.catalog db.shards).shards
              (sliceList ((diffPhase db.shards db.catalog
                  (scanDir dir)).leftover ++
                (processLoop (diffPhase db.shards db.catalog
                  (scanDir dir)).expDict db.catalog db.shards).newTemp))).master.getD
                []).map fun r => r.objid)⟩ := by
        simp [performUpdate, h1, h2]
      have hvalid : ∀ u ∈ (diffPhase db.shards db.catalog
          (scanDir dir)).expDict, validUnit u = true :=
        processLoop_not_aborted _ _ _ h2f
      have hsubl : (diffPhase db.shards db.catalog
          (scanDir dir)).expDict.Sublist (scanDir dir) :=
        diffPhase_expDict_sublist db.shards db.catalog (scanDir dir)
      have hsubset : ∀ u ∈ (diffPhase db.shards db.catalog
          (scanDir dir)).expDict, u ∈ scanDir dir :=
        fun u hu => hsubl.subset hu
      have hNed : (((diffPhase db.shards db.catalog
          (scanDir dir)).expDict.map fun s => s.expnum).Nodup) :=
        List.Nodup.sublist (hsubl.map _) hS
      have hXed : ∀ u ∈ (diffPhase db.shards db.catalog
          (scanDir dir)).expDict, u.xtrExpnum = u.expnum :=
        fun u hu => hX u (hsubset u hu)
      have hinj : ∀ a ∈ scanDir dir, ∀ b ∈ scanDir dir,
          a.expnum = b.expnum → a = b :=
        fun a ha b hb => List.inj_on_of_nodup_map hS ha hb
      have hcat : ∀ src ∈ scanDir dir,
          ∃ c ∈ (processLoop (diffPhase db.shards db.catalog
            (scanDir dir)).expDict db.catalog db.shards).catalog,
            c.expnum = src.expnum ∧ src.mtime ≤ c.lastModified := by
        intro src hsrc
        by_cases hmem : src ∈ (diffPhase db.shards db.catalog
            (scanDir dir)).expDict
        · exact ⟨⟨src.expnum, src.mtime⟩,
            processLoop_catalog_entry _ db.catalog db.shards hvalid hNed hXed
              src hmem, rfl, le_refl _⟩
        · obtain ⟨c, hc, hck, hcm⟩ := diffPhase_popped db.shards db.catalog
            (scanDir dir) src hS hsrc hmem
          refine ⟨c, ?_, hck, hcm⟩
          refine processLoop_catalog_keep _ _ _ c hc ?_
          intro u hu hk
          have hus : u = src := hinj u (hsubset u hu) src hsrc (by rw [hk, hck])
          rw [hus] at hu
          exact hmem hu
      have hnt : (processLoop (diffPhase db.shards db.catalog
          (scanDir dir)).expDict db.catalog db.shards).newTemp =
          (diffPhase db.shards db.catalog (scanDir dir)).expDict.map
            fun u => (u.expnum, u.rows) :=
        processLoop_newTemp _ _ _ hvalid
      have hshard : ∀ src ∈ scanDir dir,
          ∀ q ∈ (performUpdate tool dir db).db.shards, q.1 ≠ src.expnum := by
        rw [hr1]
        intro src hsrc q hq hkeq
        obtain ⟨hqP, hnotb⟩ := mergeBatches_shards_mem _ _ _ q hq
        have hTF : ∀ t ∈ ((diffPhase db.shards db.catalog
            (scanDir dir)).leftover ++
            (processLoop (diffPhase db.shards db.catalog
              (scanDir dir)).expDict db.catalog db.shards).newTemp),
            t.1 ≠ q.1 := by
          intro t ht
          obtain ⟨b, hb, htb⟩ := sliceList_mem _ t ht
          exact hnotb b hb t htb
        by_cases hmem : src ∈ (diffPhase db.shards db.catalog
            (scanDir dir)).expDict
        · refine absurd hkeq.symm (hTF (src.expnum, src.rows) ?_)
          refine List.mem_append_right _ ?_
          rw [hnt]
          exact List.mem_map_of_mem _ hmem
        · by_cases hexists : ∃ p0 ∈ db.shards, p0.1 = src.expnum
          · obtain ⟨p0, hp0, hp0k⟩ := hexists
            have hfindsome : (db.shards.find? fun q2 =>
                q2.1 == src.expnum).isSome := by
              rw [List.find?_isSome]
              exact ⟨p0, hp0, by simp [hp0k]⟩
            obtain ⟨pp, hpp⟩ := Option.isSome_iff_exists.mp hfindsome
            have hppk : pp.1 = src.expnum := by
              have := List.find?_some hpp
              simpa using this
            obtain ⟨c, hc, hck, hcm⟩ := diffPhase_popped db.shards db.catalog
              (scanDir dir) src hS hsrc hmem
            have hpick : pp ∈ (diffPhase db.shards db.catalog
                (scanDir dir)).leftover :=
              diffPhase_pickup db.shards db.catalog (scanDir dir) c src pp hS
                hc hsrc hck hcm hpp
            exact absurd (hppk.trans hkeq.symm)
              (hTF pp (List.mem_append_left _ hpick))
          · rcases processLoop_shards_sub _ db.catalog db.shards q hqP with
              hin | ⟨u, hu, hqk⟩
            · rw [List.mem_map] at hin
              obtain ⟨s, hs, hsk⟩ := hin
              exact hexists ⟨s, hs, by rw [hsk, hkeq]⟩
            · have hus : u = src :=
                hinj u (hsubset u hu) src hsrc (by rw [← hqk, hkeq])
              rw [hus] at hu
              exact hmem hu
      have hcat2 : ∀ src ∈ scanDir dir,
          ∃ c ∈ (performUpdate tool dir db).db.catalog,
            c.expnum = src.expnum ∧ src.mtime ≤ c.lastModified := by
        rw [hr1]
        exact hcat
      have hnodup2 : (((performUpdate tool dir db).db.catalog.map
          fun c => c.expnum).Nodup) := by
        rw [hr1]
        exact processLoop_catalog_nodup _ db.catalog db.shards hXed hC
      have hd2 : diffPhase (performUpdate tool dir db).db.shards
          (performUpdate tool dir db).db.catalog (scanDir dir) =
          ⟨[], [], []⟩ := by
        refine diffPhase_drain _ _ _ hnodup2 ?_ ?_
        · intro src hsrc
          exact hcat2 src hsrc
        · intro src hsrc q hq
          exact hshard src hsrc q hq
      have h1b : ((diffPhase (performUpdate tool dir db).db.shards
          (performUpdate tool dir db).db.catalog (scanDir dir)).expDict.isEmpty
          && (diffPhase (performUpdate tool dir db).db.shards
          (performUpdate tool dir db).db.catalog
            (scanDir dir)).leftover.isEmpty) = true := by
        rw [hd2]
        rfl
      clear hr1 hcat hcat2 hnodup2 hshard hnt hvalid hXed hNed hsubset hsubl
        hinj h2f h2 h1 hA hX hC hS
      revert hd2 h1b
      generalize (performUpdate tool dir db).db = X
      intro hd2 h1b
      refine ⟨?_, ?_, ?_, ?_, ?_⟩ <;>
        simp [performUpdate, h1b, hd2]

/-- Witness for C3: two fresh units ingested from an empty database, then a
second run over the unchanged directory. -/
theorem claim_C3_witness :
    (performUpdate toolV [entryExp1, entryExp2]
      (performUpdate toolV [entryExp1, entryExp2] emptyDB).db).nNew = 0 ∧
    (performUpdate toolV [entryExp1, entryExp2]
      (performUpdate toolV [entryExp1, entryExp2] emptyDB).db).nOutdated = 0 ∧
    (performUpdate toolV [entryExp1, entryExp2]
      (performUpdate toolV [entryExp1, entryExp2] emptyDB).db).merged = false ∧
    (performUpdate toolV [entryExp1, entryExp2]
      (performUpdate toolV [entryExp1, entryExp2] emptyDB).db).aborted = false ∧
    (performUpdate toolV [entryExp1, entryExp2]
      (performUpdate toolV [entryExp1, entryExp2] emptyDB).db).db.master =
      (performUpdate toolV [entryExp1, entryExp2] emptyDB).db.master :=
  claim_C3 toolV [entryExp1, entryExp2] emptyDB (by decide) (by decide)
    (by decide) (by decide)

/-- **Counterexample to C3 as stated.**  One unit `Exp5` whose companion
metadata row carries exposure id 7 (the primary rows are valid, so no
validation error fires).  The first update stores the catalog row under
key 7 (lines 663/666 store `(*xtr_data, mtime)` unvalidated); the second
run — with zero filesystem changes — finds no catalog entry for id 5, so
it reports **one new** unit instead of zero, runs a merge, and appends the
unit's rows to the master store a second time: the row list is
`[(20,5), (20,5)]` after run two versus `[(20,5)]` after run one, not
byte-identical. -/
theorem claim_C3_counterexample :
    (performUpdate toolV [entryExp5BadXtr]
      (performUpdate toolV [entryExp5BadXtr] emptyDB).db).nNew = 1 ∧
    (performUpdate toolV [entryExp5BadXtr]
      (performUpdate toolV [entryExp5BadXtr] emptyDB).db).nOutdated = 0 ∧
    (performUpdate toolV [entryExp5BadXtr]
      (performUpdate toolV [entryExp5BadXtr] emptyDB).db).merged = true ∧
    (performUpdate toolV [entryExp5BadXtr] emptyDB).db.master =
      some [⟨20, 5⟩] ∧
    (performUpdate toolV [entryExp5BadXtr]
      (performUpdate toolV [entryExp5BadXtr] emptyDB).db).db.master =
      some [⟨20, 5⟩, ⟨20, 5⟩] := by
  decide
